import Mathlib

/-!
# pifm: the sample queue, the GPCLK0 register protocol and the transmitter

A shallow embedding of `pifm.c`.  Machine integers are natural numbers with the
wrap-around of their width written out (`% 2^32`, `% 2^64`).  A function guarded
by `qmutex` is one atomic step.  Volatile stores are recorded, in program order,
in a log.
-/

namespace Pifm

/-! ## Constants -/

/-- The constant `#define BYTES_PER_SAMPLE 2`. -/
def BYTES_PER_SAMPLE : Nat := 2

/-- The constant `#define SAMPLES_PER_SECOND 20000`. -/
def SAMPLES_PER_SECOND : Nat := 20000

/-- The constant `#define USECS_PER_SAMPLE (1000000/SAMPLES_PER_SECOND)`. -/
def USECS_PER_SAMPLE : Nat := 1000000 / SAMPLES_PER_SECOND

/-- The constant `#define QMAX SAMPLES_PER_SECOND`. -/
def QMAX : Nat := SAMPLES_PER_SECOND

/-! ## The sample queue (`queue`, `qhead`, `qcount`, `qpush`, `qpull`) -/

/-- The three globals `uint32_t queue[QMAX]; uint32_t qhead, qcount;`.  The array is a
map from index to word; that every index used is below `QMAX` is proved, not assumed. -/
structure QState where
  queue : Nat → Nat
  qhead : Nat
  qcount : Nat

/-- The initial values of the globals: a zeroed array, `qhead=0, qcount=0`. -/
def qinit : QState := { queue := fun _ => 0, qhead := 0, qcount := 0 }

/-- The index `(qhead+qcount)%QMAX` written by `qpush`, the sum taken in `uint32_t`. -/
def qpushIndex (s : QState) : Nat := ((s.qhead + s.qcount) % 2 ^ 32) % QMAX

/-- The index `qhead` read by `qpull`. -/
def qpullIndex (s : QState) : Nat := s.qhead

/-- The function `bool qpush(uint32_t d)`: the result `res` and the globals after the call. -/
def qpush (s : QState) (d : Nat) : Bool × QState :=
  if s.qcount < QMAX then
    (true,
      { queue := fun i => if i = qpushIndex s then d else s.queue i,
        qhead := s.qhead,
        qcount := (s.qcount + 1) % 2 ^ 32 })
  else
    (false, s)

/-- The function `bool qpull(uint32_t *d)`: the result `res`, the value of `*d` after the call
(`d` is its value before) and the globals after the call. -/
def qpull (s : QState) (d : Nat) : Bool × Nat × QState :=
  if s.qcount ≠ 0 then
    (true, s.queue (qpullIndex s),
      { queue := s.queue,
        qhead := ((s.qhead + 1) % 2 ^ 32) % QMAX,
        qcount := (s.qcount + 2 ^ 32 - 1) % 2 ^ 32 })
  else
    (false, d, s)

/-- The predicate `qcount <= QMAX` and `qhead < QMAX`. -/
def QInv (s : QState) : Prop := s.qcount ≤ QMAX ∧ s.qhead < QMAX

instance (s : QState) : Decidable (QInv s) := by unfold QInv; infer_instance

/-- One call made on the queue by either thread. -/
inductive QOp where
  | push (d : Nat)
  | pull
  deriving DecidableEq, Repr

/-- What a call on the queue is seen to do: `qpush` returned true or false for `d`,
`qpull` returned true with `*d = v`, or `qpull` returned false. -/
inductive QEvent where
  | accepted (d : Nat)
  | rejected (d : Nat)
  | pulled (v : Nat)
  | underflow
  deriving DecidableEq, Repr

/-- One call of `qpush` or `qpull` on the globals. -/
def qstep (s : QState) : QOp → QState × QEvent
  | .push d => ((qpush s d).2, if (qpush s d).1 then .accepted d else .rejected d)
  | .pull => ((qpull s 0).2.2, if (qpull s 0).1 then .pulled (qpull s 0).2.1 else .underflow)

/-- A finite sequence of calls, run in order: the final globals and what was seen. -/
def qexec (s : QState) : List QOp → QState × List QEvent
  | [] => (s, [])
  | op :: ops => ((qexec (qstep s op).1 ops).1, (qstep s op).2 :: (qexec (qstep s op).1 ops).2)

/-- The values accepted by the successful `qpush` calls, in order. -/
def pushedVals : List QEvent → List Nat
  | [] => []
  | .accepted d :: es => d :: pushedVals es
  | _ :: es => pushedVals es

/-- The values returned by the successful `qpull` calls, in order. -/
def pulledVals : List QEvent → List Nat
  | [] => []
  | .pulled v :: es => v :: pulledVals es
  | _ :: es => pulledVals es

/-- The values held by the ring buffer, oldest first. -/
def contents (s : QState) : List Nat :=
  (List.range s.qcount).map (fun i => s.queue ((s.qhead + i) % QMAX))

/-! ### The abstract queue of the specification -/

/-- The specification's `push` on a list bounded by `QMAX`: append when there is room. -/
def absPush (l : List Nat) (d : Nat) : Bool × List Nat :=
  if l.length < QMAX then (true, l ++ [d]) else (false, l)

/-- The specification's `pull`: take the oldest element when there is one. -/
def absPull : List Nat → Option Nat × List Nat
  | [] => (none, [])
  | x :: xs => (some x, xs)

/-- One call on the abstract queue. -/
def absStep (l : List Nat) : QOp → List Nat × QEvent
  | .push d => ((absPush l d).2, if (absPush l d).1 then .accepted d else .rejected d)
  | .pull =>
    match absPull l with
    | (some v, l') => (l', .pulled v)
    | (none, l') => (l', .underflow)

/-- A finite sequence of calls on the abstract queue. -/
def absExec (l : List Nat) : List QOp → List Nat × List QEvent
  | [] => (l, [])
  | op :: ops =>
    ((absExec (absStep l op).1 ops).1, (absStep l op).2 :: (absExec (absStep l op).1 ops).2)

/-! ## The clock registers (`GPCLK0_MODE`, `GPCLK0_DIV`, `GPFSEL0`) -/

/-- The 32-bit registers the program stores to. -/
inductive Reg where
  | GPCLK0_MODE
  | GPCLK0_DIV
  | GPFSEL0
  deriving DecidableEq, Repr

/-- A volatile store: a word to a register, or `halt=true` by the transmitter. -/
inductive Store where
  | reg (r : Reg) (v : Nat)
  | halt
  deriving DecidableEq, Repr

/-- The register window: the word each register holds, and the stores made so far, oldest
first. -/
structure Hw where
  regs : Reg → Nat
  log : List Store

/-- The C expression `~x` at type `int`, converted to `uint32_t`. -/
def not32 (x : Nat) : Nat := 2 ^ 32 - 1 - x % 2 ^ 32

/-- A load from a register. -/
def readReg (h : Hw) (r : Reg) : Nat := h.regs r

/-- An assignment `R = v` to a 32-bit register. -/
def writeReg (h : Hw) (r : Reg) (v : Nat) : Hw :=
  { regs := fun r' => if r' = r then v % 2 ^ 32 else h.regs r',
    log := h.log ++ [Store.reg r (v % 2 ^ 32)] }

/-- The function `inline void enable_GPCLK0(bool enable)`: the register window after the
call. -/
def enable_GPCLK0 (enable : Bool) (h : Hw) : Hw :=
  if enable then
    let h1 := writeReg h .GPFSEL0 ((readReg h .GPFSEL0 &&& not32 (7 <<< 12)) ||| (4 <<< 12))
    let h2 := writeReg h1 .GPCLK0_MODE ((0x5a <<< 24) ||| (1 <<< 5))
    let h3 := writeReg h2 .GPCLK0_MODE ((0x5a <<< 24) ||| (1 <<< 4))
    writeReg h3 .GPCLK0_MODE ((0x5a <<< 24) ||| (1 <<< 9) ||| (1 <<< 4) ||| 6)
  else
    let h1 := writeReg h .GPCLK0_MODE (0x5a <<< 24)
    writeReg h1 .GPFSEL0 (readReg h1 .GPFSEL0 &&& not32 (7 <<< 12))

/-- The function `inline void set_GPCLK0(uint32_t n)`: the register window after the call. -/
def set_GPCLK0 (n : Nat) (h : Hw) : Hw :=
  writeReg h .GPCLK0_DIV ((0x5a <<< 24) ||| n)

/-- The four stores of the enable sequence, for a pin-function register holding `g`. -/
def enableSeq (g : Nat) : List Store :=
  [Store.reg .GPFSEL0 ((g &&& 0xFFFF8FFF) ||| 0x4000),
   Store.reg .GPCLK0_MODE 0x5A000020,
   Store.reg .GPCLK0_MODE 0x5A000010,
   Store.reg .GPCLK0_MODE 0x5A000216]

/-- The two stores of the disable sequence, for a pin-function register holding `g`. -/
def disableSeq (g : Nat) : List Store :=
  [Store.reg .GPCLK0_MODE 0x5A000000,
   Store.reg .GPFSEL0 (g &&& 0xFFFF8FFF)]

/-! ## The transmitter thread (`transmit`) -/

/-- The C expression `(int64_t)x` for a `uint64_t` value `x`. -/
def toInt64 (x : Nat) : Int :=
  if x % 2 ^ 64 < 2 ^ 63 then (x % 2 ^ 64 : Nat) else ((x % 2 ^ 64 : Nat) : Int) - 2 ^ 64

/-- The C expression `a-b` at type `uint64_t`. -/
def sub64 (a b : Nat) : Nat := (a % 2 ^ 64 + 2 ^ 64 - b % 2 ^ 64) % 2 ^ 64

/-- The spin condition `(int64_t)(SYSCLK-next) < 0` for the counter value `c`. -/
def spinCond (c next : Nat) : Bool := decide (toInt64 (sub64 c next) < 0)

/-- What another context does to the shared state: the reader loop of `main` gets a `qpush`
through, or `catch`, `cleanup` or the reader loop stores `halt=true`. -/
inductive EnvAct where
  | push (d : Nat)
  | sethalt
  deriving DecidableEq, Repr

/-- The world around the transmitter: the value the `k`-th load of `SYSCLK` returns, and
what the other contexts do just before the transmitter's `t`-th atomic step. -/
structure Env where
  sysclk : Nat → Nat
  acts : Nat → List EnvAct

/-- The program points of `transmit` between two accesses to shared state. -/
inductive PC where
  | wait      -- `while (!qpull(&divisor))`
  | waitHalt  -- `if (halt) return NULL;`
  | enable    -- `enable_GPCLK0(1);`
  | readClk   -- `uint64_t next = SYSCLK;`
  | loopTop   -- `while (!halt)`
  | spin      -- `while ((int64_t)(SYSCLK-next) < 0)`
  | spinHalt  -- `if (halt) goto out;`
  | write     -- `set_GPCLK0(divisor);`
  | pull      -- `if (!qpull(&divisor)) break; next += USECS_PER_SAMPLE;`
  | out       -- `halt=true;`
  | disable   -- `enable_GPCLK0(0);`
  | done      -- returned
  deriving DecidableEq, Repr

/-- The way `transmit` left its loops. -/
inductive Exit where
  | waitHalt   -- `halt` seen while waiting for the first queue entry
  | topHalt    -- `halt` seen by `while (!halt)`
  | spinHalt   -- `halt` seen in the spin-wait
  | underflow  -- `qpull` failed in the streaming loop
  deriving DecidableEq, Repr

/-- The state of a run of `transmit`: its program point and locals (`divisor`, `next`), the
shared globals (`q`, `halt`), the registers, the number `t` of atomic steps taken and `k` of
`SYSCLK` loads made, and two records that nothing reads: the way the loops were left and the
last `SYSCLK` value loaded. -/
structure TState where
  pc : PC
  q : QState
  halt : Bool
  hw : Hw
  divisor : Nat
  next : Nat
  t : Nat
  k : Nat
  via : Option Exit
  lastclk : Nat

/-- The state on entry to `transmit`; `divisor` is not initialised by the program. -/
def tinit (q : QState) (halt : Bool) (hw : Hw) (divisor : Nat) : TState :=
  { pc := .wait, q := q, halt := halt, hw := hw, divisor := divisor, next := 0, t := 0, k := 0,
    via := none, lastclk := 0 }

/-- One action of another context on the shared state. -/
def envAct (s : TState) : EnvAct → TState
  | .push d => { s with q := (qpush s.q d).2 }
  | .sethalt => { s with halt := true }

/-- The actions of the other contexts just before the transmitter's next atomic step. -/
def others (e : Env) (s : TState) : TState := (e.acts s.t).foldl envAct s

/-- The transmitter's atomic step at its program point. -/
def tbody (e : Env) (s : TState) : TState :=
  match s.pc with
  | .wait =>
    if (qpull s.q s.divisor).1 then
      { s with q := (qpull s.q s.divisor).2.2, divisor := (qpull s.q s.divisor).2.1,
               pc := .enable, t := s.t + 1 }
    else
      { s with q := (qpull s.q s.divisor).2.2, divisor := (qpull s.q s.divisor).2.1,
               pc := .waitHalt, t := s.t + 1 }
  | .waitHalt =>
    if s.halt then { s with pc := .done, via := some .waitHalt, t := s.t + 1 }
    else { s with pc := .wait, t := s.t + 1 }
  | .enable => { s with hw := enable_GPCLK0 true s.hw, pc := .readClk, t := s.t + 1 }
  | .readClk =>
    { s with next := e.sysclk s.k % 2 ^ 64, lastclk := e.sysclk s.k % 2 ^ 64, k := s.k + 1,
             pc := .loopTop, t := s.t + 1 }
  | .loopTop =>
    if s.halt then { s with pc := .out, via := some .topHalt, t := s.t + 1 }
    else { s with pc := .spin, t := s.t + 1 }
  | .spin =>
    if spinCond (e.sysclk s.k) s.next then
      { s with lastclk := e.sysclk s.k % 2 ^ 64, k := s.k + 1, pc := .spinHalt, t := s.t + 1 }
    else
      { s with lastclk := e.sysclk s.k % 2 ^ 64, k := s.k + 1, pc := .write, t := s.t + 1 }
  | .spinHalt =>
    if s.halt then { s with pc := .out, via := some .spinHalt, t := s.t + 1 }
    else { s with pc := .spin, t := s.t + 1 }
  | .write => { s with hw := set_GPCLK0 s.divisor s.hw, pc := .pull, t := s.t + 1 }
  | .pull =>
    if (qpull s.q s.divisor).1 then
      { s with q := (qpull s.q s.divisor).2.2, divisor := (qpull s.q s.divisor).2.1,
               next := (s.next + USECS_PER_SAMPLE) % 2 ^ 64, pc := .loopTop, t := s.t + 1 }
    else
      { s with q := (qpull s.q s.divisor).2.2, divisor := (qpull s.q s.divisor).2.1,
               pc := .out, via := some .underflow, t := s.t + 1 }
  | .out =>
    { s with halt := true, hw := { s.hw with log := s.hw.log ++ [Store.halt] },
             pc := .disable, t := s.t + 1 }
  | .disable => { s with hw := enable_GPCLK0 false s.hw, pc := .done, t := s.t + 1 }
  | .done => s

/-- One atomic step of the transmitter, after whatever the other contexts did meanwhile;
nothing more happens once it has returned. -/
def tstep (e : Env) (s : TState) : TState :=
  match s.pc with
  | .done => s
  | _ => tbody e (others e s)

/-- The thread function `void *transmit(void * unused)`, run for `fuel` atomic steps from the
state `s` in the world `e`. -/
def transmit (e : Env) : Nat → TState → TState
  | 0, s => s
  | fuel + 1, s => transmit e fuel (tstep e s)

/-- A world in which no other context touches the shared state. -/
def quietEnv (sysclk : Nat → Nat) : Env := { sysclk := sysclk, acts := fun _ => [] }

/-- The deadline of the `j`-th divisor: `next` after `j` times `next += USECS_PER_SAMPLE`
from the first `SYSCLK` value `start`. -/
def deadline (start j : Nat) : Nat := (start + USECS_PER_SAMPLE * j) % 2 ^ 64

/-- The word `set_GPCLK0(d)` stores. -/
def divWord (d : Nat) : Nat := (0x5A000000 ||| d) % 2 ^ 32

/-- The stores `set_GPCLK0` makes for the divisors `ds`, one each, in order. -/
def divStores (ds : List Nat) : List Store :=
  ds.map (fun d => Store.reg .GPCLK0_DIV (divWord d))

/-- The words stored to `GPCLK0_DIV`, in order, among the stores `l`. -/
def divWritten : List Store → List Nat
  | [] => []
  | Store.reg .GPCLK0_DIV v :: l => v :: divWritten l
  | _ :: l => divWritten l

/-- The loops were left from the streaming phase, after `enable_GPCLK0(1)`. -/
def streamExit (v : Option Exit) : Prop :=
  v = some .topHalt ∨ v = some .spinHalt ∨ v = some .underflow

/-- What holds at each program point of `transmit` in a run entered with store log `l0` and
`GPFSEL0 = g0`: nothing is stored before `enable_GPCLK0(1)`; from then on `GPFSEL0` holds the
word the enable sequence stored; at `enable_GPCLK0(0)` the flag `halt` is set and was the
last store; on return `halt` is set and either the return was from the first loop with
nothing stored, or the log ends with the store of `halt` and the disable sequence. -/
def TInv (l0 : List Store) (g0 : Nat) (s : TState) : Prop :=
  (s.pc = .wait ∨ s.pc = .waitHalt ∨ s.pc = .enable →
    s.hw.log = l0 ∧ s.hw.regs .GPFSEL0 = g0 ∧ s.via = none) ∧
  (s.pc = .readClk ∨ s.pc = .loopTop ∨ s.pc = .spin ∨ s.pc = .spinHalt ∨ s.pc = .write ∨
      s.pc = .pull →
    s.hw.regs .GPFSEL0 = ((g0 &&& 0xFFFF8FFF) ||| 0x4000) ∧ s.via = none) ∧
  (s.pc = .out →
    s.hw.regs .GPFSEL0 = ((g0 &&& 0xFFFF8FFF) ||| 0x4000) ∧ streamExit s.via) ∧
  (s.pc = .disable →
    s.halt = true ∧ s.hw.regs .GPFSEL0 = ((g0 &&& 0xFFFF8FFF) ||| 0x4000) ∧ streamExit s.via ∧
      ∃ pre, s.hw.log = pre ++ [Store.halt]) ∧
  (s.pc = .done →
    s.halt = true ∧
      ((s.via = some .waitHalt ∧ s.hw.log = l0) ∨
        (streamExit s.via ∧
          ∃ pre, s.hw.log = pre ++ [Store.halt] ++ disableSeq ((g0 &&& 0xFFFF8FFF) ||| 0x4000))))

/-! ## The divisor computation (`main`, the two lines after `fread`) -/

/-- A finite binary floating-point value, `m * 2^e`. -/
structure Fl where
  m : Int
  e : Int
  deriving DecidableEq, Repr

/-- The number of bits of `n` less one, `floor (log2 n)` for `n > 0`, by halving. -/
def log2Fuel : Nat → Nat → Nat
  | 0, _ => 0
  | fuel + 1, n => if 2 ≤ n then log2Fuel fuel (n / 2) + 1 else 0

/-- The integer `floor (log2 (a / d))` for `a, d > 0`. -/
def fracLog2 (a d : Nat) : Int :=
  let e0 : Int := (log2Fuel a a : Int) - (log2Fuel d d : Int)
  if d * 2 ^ e0.toNat ≤ a * 2 ^ (-e0).toNat then e0 else e0 - 1

/-- IEEE 754 round-to-nearest, ties-to-even, of the real `n / d * 2^x` (`d > 0`) to a binary
format with `p` significand bits and exponent range `emin..emax`; `none` when the rounded
value is beyond the largest finite number (the C result would be an infinity). -/
def roundNE (p : Nat) (emin emax : Int) (n : Int) (d : Nat) (x : Int) : Option Fl :=
  if n = 0 then some ⟨0, 0⟩
  else
    let a := n.natAbs
    let qe : Int := max (fracLog2 a d + x - (p - 1)) (emin - (p - 1))
    let num := a * 2 ^ (x - qe).toNat
    let den := d * 2 ^ (qe - x).toNat
    let q := num / den
    let r := num % den
    let mant :=
      if 2 * r < den then q else if den < 2 * r then q + 1 else if q % 2 = 0 then q else q + 1
    if emax < (log2Fuel mant mant : Int) + qe then none
    else some ⟨if n < 0 then -(mant : Int) else mant, qe⟩

/-- Rounding to `double` (binary64). -/
def rnd64 (n : Int) (d : Nat) (x : Int) : Option Fl := roundNE 53 (-1022) 1023 n d x

/-- Rounding to `float` (binary32). -/
def rnd32 (n : Int) (d : Nat) (x : Int) : Option Fl := roundNE 24 (-126) 127 n d x

/-- The `double` product `a * b`. -/
def mul64 (a b : Fl) : Option Fl := rnd64 (a.m * b.m) 1 (a.e + b.e)

/-- The `double` sum `a + b`. -/
def add64 (a b : Fl) : Option Fl :=
  rnd64 (a.m * 2 ^ (a.e - min a.e b.e).toNat + b.m * 2 ^ (b.e - min a.e b.e).toNat) 1 (min a.e b.e)

/-- The `double` quotient `a / b`; `none` when `b` is zero (the C result is an infinity or a
NaN). -/
def div64 (a b : Fl) : Option Fl :=
  if b.m = 0 then none else rnd64 (a.m * b.m.sign) b.m.natAbs (a.e - b.e)

/-- The conversion of a `double` to `float`, as in the initialisation `float f = ...`. -/
def toFloat (a : Fl) : Option Fl := rnd32 a.m 1 a.e

/-- The cast `(uint32_t)a` of a `double`: the fraction is discarded (truncation toward zero);
`none` when the truncated value is not a `uint32_t` value (undefined in C). -/
def toU32 (a : Fl) : Option Nat :=
  let t : Int := if 0 ≤ a.e then a.m * 2 ^ a.e.toNat else Int.tdiv a.m (2 ^ (-a.e).toNat)
  if 0 ≤ t ∧ t < 2 ^ 32 then some t.toNat else none

/-- The constant `#define GPCLK0_SOURCE_MHZ 500.0`. -/
def GPCLK0_SOURCE_MHZ : Fl := ⟨500, 0⟩

/-- The `float` nearest to the `double` nearest to the decimal `n / d`: what
`float x = atof("...")` and `float deviation=0.075;` store. -/
def floatOfDecimal (n : Int) (d : Nat) : Option Fl := (rnd64 n d 0).bind toFloat

/-- The `float f` of `float f = frequency+((sample/32768.0)*deviation);`: the arithmetic is
in `double`, the result is rounded to `float`. -/
def outFreq (frequency deviation : Fl) (sample : Int) : Option Fl :=
  (div64 ⟨sample, 0⟩ ⟨32768, 0⟩).bind fun s =>
  (mul64 s deviation).bind fun sd =>
  (add64 frequency sd).bind toFloat

/-- The `double` value `(GPCLK0_SOURCE_MHZ/f)*4096` that is cast to `uint32_t`. -/
def divisorReal (frequency deviation : Fl) (sample : Int) : Option Fl :=
  (outFreq frequency deviation sample).bind fun f =>
  (div64 GPCLK0_SOURCE_MHZ f).bind fun r =>
  mul64 r ⟨4096, 0⟩

/-- The divisor of `uint32_t d =(uint32_t)((GPCLK0_SOURCE_MHZ/f)*4096);`. -/
def divisor (frequency deviation : Fl) (sample : Int) : Option Nat :=
  (divisorReal frequency deviation sample).bind toU32

/-- The number of words stored to `GPCLK0_DIV` among the stores `l`. -/
def nDiv (l : List Store) : Nat := (divWritten l).length

/-- The deadline schedule of a run of `transmit` entered with store log `l0`, for the first
`SYSCLK` value `start`: before `next = SYSCLK` no load of `SYSCLK` and no divisor store has
been made; in the streaming loop, after `j` divisor stores `next` is the `j`-th deadline, and
at `set_GPCLK0(divisor)` the last `SYSCLK` value loaded fails the spin condition for it. -/
def SchedInv (l0 : List Store) (start : Nat) (s : TState) : Prop :=
  (s.pc = .wait ∨ s.pc = .waitHalt ∨ s.pc = .enable ∨ s.pc = .readClk →
    s.k = 0 ∧ nDiv s.hw.log = nDiv l0) ∧
  (s.pc = .loopTop ∨ s.pc = .spin ∨ s.pc = .spinHalt →
    ∃ j, nDiv s.hw.log = nDiv l0 + j ∧ s.next = deadline start j) ∧
  (s.pc = .write →
    ∃ j, nDiv s.hw.log = nDiv l0 + j ∧ s.next = deadline start j ∧
      spinCond s.lastclk s.next = false) ∧
  (s.pc = .pull →
    ∃ j, nDiv s.hw.log = nDiv l0 + (j + 1) ∧ s.next = deadline start j)

/-- The register stores among the stores `l`, in order: the store of `halt` is left out. -/
def regWrites : List Store → List (Reg × Nat)
  | [] => []
  | Store.reg r v :: l => (r, v) :: regWrites l
  | Store.halt :: l => regWrites l

/-- The shape of the store log at each program point of a run of `transmit` entered with
store log `l0` and `GPFSEL0 = g0`: nothing before `enable_GPCLK0(1)`; then the enable
sequence followed by divisor stores only; then the store of `halt`; then the disable
sequence, after which the function has returned. -/
def ShapeInv (l0 : List Store) (g0 : Nat) (s : TState) : Prop :=
  (s.pc = .wait ∨ s.pc = .waitHalt ∨ s.pc = .enable →
    s.hw.log = l0 ∧ s.hw.regs .GPFSEL0 = g0 ∧ s.via = none) ∧
  (s.pc = .readClk ∨ s.pc = .loopTop ∨ s.pc = .spin ∨ s.pc = .spinHalt ∨ s.pc = .write ∨
      s.pc = .pull ∨ s.pc = .out →
    s.hw.regs .GPFSEL0 = ((g0 &&& 0xFFFF8FFF) ||| 0x4000) ∧ s.via ≠ some .waitHalt ∧
      ∃ ds, s.hw.log = l0 ++ enableSeq g0 ++ divStores ds) ∧
  (s.pc = .disable →
    s.hw.regs .GPFSEL0 = ((g0 &&& 0xFFFF8FFF) ||| 0x4000) ∧ s.via ≠ some .waitHalt ∧
      ∃ ds, s.hw.log = l0 ++ enableSeq g0 ++ divStores ds ++ [Store.halt]) ∧
  (s.pc = .done →
    (s.via = some .waitHalt ∧ s.hw.log = l0) ∨
      (s.via ≠ some .waitHalt ∧
        ∃ ds, s.hw.log = l0 ++ enableSeq g0 ++ divStores ds ++ [Store.halt] ++
          disableSeq ((g0 &&& 0xFFFF8FFF) ||| 0x4000)))

/-- A transmitter in the spin-wait, at `if (halt) goto out;`, holding the divisor 20378 for
the deadline 50, with `halt` set and the clock output enabled. -/
def heldInSpin : TState :=
  { pc := .spinHalt, q := qinit, halt := true,
    hw := enable_GPCLK0 true { regs := fun _ => 0, log := [] },
    divisor := 20378, next := 50, t := 9, k := 2, via := none, lastclk := 0 }

/-! ## The main thread (`main`, `catch`, `cleanup`) and the whole process -/

/-- What `main` gets from the command line and from the system calls made before the read
loop: whether `getopt` met a missing or invalid option, the values of `deviation` and
`frequency` after the arguments are read, the `unsigned long` that `strtoul` returned for
the option `-t` (0 without the option), and whether `open`, `mmap` and `pthread_create`
succeeded. -/
structure Setup where
  badOption : Bool
  deviation : Fl
  frequency : Fl
  timeout : Nat
  openOk : Bool
  mmapOk : Bool
  createOk : Bool

/-- The program points of `main` (and of `cleanup`, which `exit` runs) between two accesses
to shared state. -/
inductive RPC where
  | setup     -- options, `open`, `mmap`, `pthread_create`, `atexit`, `signal`
  | tmo       -- `if (timeout) timeout += time(NULL);`
  | top       -- `while (!halt)`
  | read      -- `fread`, `if (!got) break;`, `if (got != 1) die`, the two conversions
  | push      -- `!qpush(d)`
  | pushHalt  -- `&& !halt`
  | timeChk   -- `if (timeout && timeout <= time(NULL)) halt=true;`
  | join      -- `pthread_join(thread, NULL); return 1;`
  | cleanup   -- in `cleanup`: `halt=true;`
  | reap      -- in `cleanup`: `pthread_join(thread, NULL);`
  | exited    -- the process has ended
  | undef     -- undefined in C: the conversion to `uint32_t` was out of range, or
              -- `timeout += time(NULL)` overflowed `time_t`
  deriving DecidableEq, Repr

/-- The way `main` came to end the process. -/
inductive RExit where
  | usage         -- `usage()`
  | openFailed    -- `die("Can't open /dev/mem ...")`
  | mmapFailed    -- `die("Can't mmap IOBASE ...")`
  | createFailed  -- `die("Couldn't start transmitter thread ...")`
  | readFailed    -- `die("stdin read failed ...")`
  | eof           -- `if (!got) break;`
  | haltSeen      -- `while (!halt)` saw `halt`
  deriving DecidableEq, Repr

/-- The state of the main thread: its program point, the setup, the bytes left on `stdin`,
the locals `d` and `timeout`, the status passed to `exit`, whether the transmitter thread
was created (and `cleanup` registered), and a record that nothing reads: the way the
process came to end.  The local `time_t timeout` is a signed 64-bit integer, between
`-2^63` and `2^63 - 1`. -/
structure RState where
  pc : RPC
  cfg : Setup
  input : List Nat
  d : Nat
  timeout : Int
  status : Nat
  started : Bool
  why : Option RExit

/-- The state of the process: the transmitter thread with the shared globals and the
registers, and the main thread. -/
structure Sys where
  tx : TState
  rd : RState

/-- The libc call `fread(ptr, size, 1, stdin)` as the C standard defines it: the number of
complete items read (0 or 1), the bytes of the item, and the bytes left on the stream; a
trailing part of an item is consumed and not counted. -/
def fread (size : Nat) (input : List Nat) : Nat × List Nat × List Nat :=
  if size ≠ 0 ∧ size ≤ input.length then (1, input.take size, input.drop size) else (0, [], [])

/-- The `int16_t sample` that two bytes stored by `fread` make on a little-endian machine. -/
def sampleOf (b : List Nat) : Int :=
  if b.getD 0 0 % 256 + 256 * (b.getD 1 0 % 256) < 32768 then
    ((b.getD 0 0 % 256 + 256 * (b.getD 1 0 % 256) : Nat) : Int)
  else
    ((b.getD 0 0 % 256 + 256 * (b.getD 1 0 % 256) : Nat) : Int) - 65536

/-- The libc call `exit(status)`: when `cleanup` is registered with `atexit` it runs before
the process ends. -/
def exitWith (status : Nat) (why : RExit) (s : Sys) : Sys :=
  { s with rd := { s.rd with status := status, why := some why,
                             pc := if s.rd.started then .cleanup else .exited } }

/-- The macro `die(...)`, that is `fprintf(stderr,__VA_ARGS__), exit(1)`. -/
def die (why : RExit) (s : Sys) : Sys := exitWith 1 why s

/-- The signal handler `void catch(int num)`. -/
def catchSig (s : Sys) : Sys := { s with tx := { s.tx with halt := true } }

/-- The main thread's atomic step at its program point; `now` is what a call of `time(NULL)`
returns.  The assignment `timeout=strtoul(optarg,NULL,0)` converts an `unsigned long` to the
signed 64-bit `time_t`, which wraps modulo `2^64`; an addition `timeout += time(NULL)` whose
sum is not a `time_t` is a signed overflow, undefined in C. -/
def rstep (now : Int) (s : Sys) : Sys :=
  match s.rd.pc with
  | .setup =>
    if s.rd.cfg.badOption then die .usage s
    else if s.rd.cfg.deviation.m ≤ 0 ∨ s.rd.cfg.frequency.m ≤ 0 then die .usage s
    else if ¬ s.rd.cfg.openOk then die .openFailed s
    else if ¬ s.rd.cfg.mmapOk then die .mmapFailed s
    else if ¬ s.rd.cfg.createOk then die .createFailed s
    else
      { s with rd := { s.rd with started := true, timeout := toInt64 s.rd.cfg.timeout,
                                 pc := .tmo } }
  | .tmo =>
    if s.rd.timeout ≠ 0 then
      if -(2 ^ 63) ≤ s.rd.timeout + now ∧ s.rd.timeout + now < 2 ^ 63 then
        { s with rd := { s.rd with timeout := s.rd.timeout + now, pc := .top } }
      else { s with rd := { s.rd with pc := .undef } }
    else { s with rd := { s.rd with pc := .top } }
  | .top =>
    if s.tx.halt then { s with rd := { s.rd with why := some .haltSeen, pc := .join } }
    else { s with rd := { s.rd with pc := .read } }
  | .read =>
    if (fread BYTES_PER_SAMPLE s.rd.input).1 = 0 then
      { s with rd := { s.rd with input := (fread BYTES_PER_SAMPLE s.rd.input).2.2,
                                 why := some .eof, pc := .join } }
    else if (fread BYTES_PER_SAMPLE s.rd.input).1 ≠ 1 then
      die .readFailed
        { s with rd := { s.rd with input := (fread BYTES_PER_SAMPLE s.rd.input).2.2 } }
    else
      match divisor s.rd.cfg.frequency s.rd.cfg.deviation
          (sampleOf (fread BYTES_PER_SAMPLE s.rd.input).2.1) with
      | some d =>
        { s with rd := { s.rd with input := (fread BYTES_PER_SAMPLE s.rd.input).2.2,
                                   d := d, pc := .push } }
      | none =>
        { s with rd := { s.rd with input := (fread BYTES_PER_SAMPLE s.rd.input).2.2,
                                   pc := .undef } }
  | .push =>
    if (qpush s.tx.q s.rd.d).1 then
      { tx := { s.tx with q := (qpush s.tx.q s.rd.d).2 }, rd := { s.rd with pc := .timeChk } }
    else
      { tx := { s.tx with q := (qpush s.tx.q s.rd.d).2 }, rd := { s.rd with pc := .pushHalt } }
  | .pushHalt =>
    if s.tx.halt then { s with rd := { s.rd with pc := .timeChk } }
    else { s with rd := { s.rd with pc := .push } }
  | .timeChk =>
    if s.rd.timeout ≠ 0 ∧ s.rd.timeout ≤ now then
      { tx := { s.tx with halt := true }, rd := { s.rd with pc := .top } }
    else { s with rd := { s.rd with pc := .top } }
  | .join =>
    if s.tx.pc = .done then
      { s with rd := { s.rd with status := 1, pc := .cleanup } }
    else s
  | .cleanup => { tx := { s.tx with halt := true }, rd := { s.rd with pc := .reap } }
  | .reap =>
    if s.tx.pc = .done then { s with rd := { s.rd with pc := .exited } } else s
  | .exited => s
  | .undef => s

/-- Who takes the next atomic step of the process: a signal is delivered and `catch` runs,
the transmitter thread steps (a load of `SYSCLK` returns `c`), or the main thread steps (a
call of `time` returns `now`). -/
inductive Actor where
  | sig
  | tx (c : Nat)
  | rd (now : Int)
  deriving DecidableEq, Repr

/-- One atomic step of the process.  The handlers are installed and the transmitter exists
once the setup is over; nothing runs after the process has ended. -/
def sysStep (s : Sys) : Actor → Sys
  | .sig => if s.rd.started = true ∧ s.rd.pc ≠ .exited then catchSig s else s
  | .tx c =>
    if s.rd.started = true ∧ s.rd.pc ≠ .exited then
      { s with tx := tbody (quietEnv fun _ => c) s.tx }
    else s
  | .rd now => rstep now s

/-- The process run under a schedule, from the state `s`. -/
def sysRun (s : Sys) : List Actor → Sys
  | [] => s
  | a :: acts => sysRun (sysStep s a) acts

/-- The state of the process on entry to `main`, with `bytes` on `stdin`. -/
def sysInit (cfg : Setup) (bytes : List Nat) (hw : Hw) (divisor : Nat) : Sys :=
  { tx := tinit qinit false hw divisor,
    rd := { pc := .setup, cfg := cfg, input := bytes, d := 0, timeout := 0, status := 0,
            started := false, why := none } }

/-- The setup of a run `pifm 100.5` in which every system call succeeds: the default
deviation `0.075`, no timeout. -/
def setup100_5 : Setup :=
  { badOption := false, deviation := ⟨10066330, -27⟩, frequency := ⟨13172736, -17⟩,
    timeout := 0, openOk := true, mmapOk := true, createOk := true }

/-- The setup of a run `pifm -t 3 100.5` in which every system call succeeds. -/
def setup100_5_t3 : Setup := { setup100_5 with timeout := 3 }

/-- The setup of a run `pifm -t 9223372036854775808 100.5` in which every system call
succeeds: `strtoul` returns `2^63`. -/
def setup100_5_tWrap : Setup := { setup100_5 with timeout := 2 ^ 63 }

/-- The setup of a run `pifm -t 9223372036854775807 100.5` in which every system call
succeeds: `strtoul` returns `2^63 - 1`. -/
def setup100_5_tMax : Setup := { setup100_5 with timeout := 2 ^ 63 - 1 }

/-- The process `pifm -t 3 100.5` with three samples on `stdin`, at the timeout check of its
second iteration: the setup and a step of the transmitter, the second 100 read by
`if (timeout) timeout += time(NULL);`, a first iteration whose timeout check reads the
second 101, and a second iteration up to its timeout check. -/
def atSecondTimeChk : Sys :=
  sysRun (sysInit setup100_5_t3 [0, 0, 1, 0, 2, 0] { regs := fun _ => 0, log := [] } 0)
    ([Actor.rd 0, Actor.tx 0] ++
      Actor.rd 100 ::
        [Actor.rd 0, Actor.rd 0, Actor.rd 0, Actor.tx 0, Actor.rd 101,
         Actor.rd 0, Actor.rd 0, Actor.rd 0])

/-! ## Queue lemmas -/

theorem QInv_qinit : QInv qinit := by
  unfold QInv qinit QMAX SAMPLES_PER_SECOND
  simp

theorem QInv_qpush (s : QState) (d : Nat) (h : QInv s) : QInv (qpush s d).2 := by
  unfold QInv qpush QMAX SAMPLES_PER_SECOND at *
  split <;> simp <;> omega

theorem QInv_qpull (s : QState) (d : Nat) (h : QInv s) : QInv (qpull s d).2.2 := by
  unfold QInv qpull QMAX SAMPLES_PER_SECOND at *
  split <;> simp <;> omega

theorem contents_length (s : QState) : (contents s).length = s.qcount := by
  simp [contents]

theorem qpush_ok (s : QState) (d : Nat) (hc : s.qcount < QMAX) :
    qpush s d = (true,
      { queue := fun i => if i = qpushIndex s then d else s.queue i,
        qhead := s.qhead,
        qcount := (s.qcount + 1) % 2 ^ 32 }) := by
  unfold qpush
  rw [if_pos hc]

theorem qpush_full (s : QState) (d : Nat) (hc : ¬ s.qcount < QMAX) : qpush s d = (false, s) := by
  unfold qpush
  rw [if_neg hc]

theorem qpull_ok (s : QState) (d : Nat) (hc : s.qcount ≠ 0) :
    qpull s d = (true, s.queue (qpullIndex s),
      { queue := s.queue,
        qhead := ((s.qhead + 1) % 2 ^ 32) % QMAX,
        qcount := (s.qcount + 2 ^ 32 - 1) % 2 ^ 32 }) := by
  unfold qpull
  rw [if_pos hc]

theorem qpull_empty (s : QState) (d : Nat) (hc : s.qcount = 0) : qpull s d = (false, d, s) := by
  unfold qpull
  rw [if_neg (by simpa using hc)]

theorem contents_qpush (s : QState) (d : Nat) (h : QInv s) (hc : s.qcount < QMAX) :
    contents (qpush s d).2 = contents s ++ [d] := by
  unfold QInv at h
  have hq : (s.qcount + 1) % 2 ^ 32 = s.qcount + 1 := by
    unfold QMAX SAMPLES_PER_SECOND at hc
    omega
  rw [qpush_ok s d hc]
  unfold contents
  simp only [hq, List.range_succ, List.map_append, List.map_cons, List.map_nil]
  congr 1
  · apply List.map_congr_left
    intro i hi
    have hi' : i < s.qcount := List.mem_range.mp hi
    have hne : (s.qhead + i) % QMAX ≠ qpushIndex s := by
      unfold qpushIndex QMAX SAMPLES_PER_SECOND at *
      omega
    rw [if_neg hne]
  · have heq : (s.qhead + s.qcount) % QMAX = qpushIndex s := by
      unfold qpushIndex QMAX SAMPLES_PER_SECOND at *
      omega
    rw [if_pos heq]

theorem contents_qpull (s : QState) (d : Nat) (h : QInv s) (hc : s.qcount ≠ 0) :
    contents s = (qpull s d).2.1 :: contents (qpull s d).2.2 := by
  unfold QInv at h
  obtain ⟨n, hn⟩ : ∃ n, s.qcount = n + 1 := ⟨s.qcount - 1, by omega⟩
  have hq : (s.qcount + 2 ^ 32 - 1) % 2 ^ 32 = n := by
    unfold QMAX SAMPLES_PER_SECOND at h
    omega
  rw [qpull_ok s d hc]
  unfold contents qpullIndex
  simp only [hq]
  rw [hn, List.range_succ_eq_map, List.map_cons, List.map_map]
  have hhead : s.queue ((s.qhead + 0) % QMAX) = s.queue s.qhead := by
    rw [Nat.add_zero, Nat.mod_eq_of_lt h.2]
  have htail : List.map ((fun i => s.queue ((s.qhead + i) % QMAX)) ∘ Nat.succ) (List.range n) =
      List.map (fun i => s.queue (((s.qhead + 1) % 2 ^ 32 % QMAX + i) % QMAX)) (List.range n) := by
    apply List.map_congr_left
    intro i _
    have hidx : (s.qhead + (i + 1)) % QMAX = ((s.qhead + 1) % 2 ^ 32 % QMAX + i) % QMAX := by
      unfold QMAX SAMPLES_PER_SECOND at *
      omega
    show s.queue ((s.qhead + (i + 1)) % QMAX) = s.queue (((s.qhead + 1) % 2 ^ 32 % QMAX + i) % QMAX)
    rw [hidx]
  rw [hhead, htail]

theorem absPush_ok (l : List Nat) (d : Nat) (hc : l.length < QMAX) :
    absPush l d = (true, l ++ [d]) := by
  unfold absPush
  rw [if_pos hc]

theorem absPush_full (l : List Nat) (d : Nat) (hc : ¬ l.length < QMAX) :
    absPush l d = (false, l) := by
  unfold absPush
  rw [if_neg hc]

theorem qstep_sim (s : QState) (op : QOp) (h : QInv s) :
    absStep (contents s) op = (contents (qstep s op).1, (qstep s op).2) ∧ QInv (qstep s op).1 := by
  cases op with
  | push d =>
    refine ⟨?_, QInv_qpush s d h⟩
    show ((absPush (contents s) d).2,
        if (absPush (contents s) d).1 then QEvent.accepted d else QEvent.rejected d) =
      (contents (qpush s d).2, if (qpush s d).1 then QEvent.accepted d else QEvent.rejected d)
    by_cases hc : s.qcount < QMAX
    · rw [absPush_ok _ d (by rw [contents_length]; exact hc), contents_qpush s d h hc,
        qpush_ok s d hc]
    · rw [absPush_full _ d (by rw [contents_length]; exact hc), qpush_full s d hc]
  | pull =>
    refine ⟨?_, QInv_qpull s 0 h⟩
    by_cases hc : s.qcount = 0
    · have hnil : contents s = [] := by
        unfold contents
        rw [hc]
        rfl
      show (match absPull (contents s) with
          | (some v, l') => (l', QEvent.pulled v)
          | (none, l') => (l', QEvent.underflow)) =
        (contents (qpull s 0).2.2,
          if (qpull s 0).1 then QEvent.pulled (qpull s 0).2.1 else QEvent.underflow)
      rw [hnil, qpull_empty s 0 hc]
      show ([], QEvent.underflow) = (contents s, QEvent.underflow)
      rw [hnil]
    · show (match absPull (contents s) with
          | (some v, l') => (l', QEvent.pulled v)
          | (none, l') => (l', QEvent.underflow)) =
        (contents (qpull s 0).2.2,
          if (qpull s 0).1 then QEvent.pulled (qpull s 0).2.1 else QEvent.underflow)
      rw [contents_qpull s 0 h hc, qpull_ok s 0 hc]
      rfl

theorem qexec_sim (ops : List QOp) :
    ∀ s : QState, QInv s →
      absExec (contents s) ops = (contents (qexec s ops).1, (qexec s ops).2) ∧
        QInv (qexec s ops).1 := by
  induction ops with
  | nil =>
    intro s h
    exact ⟨rfl, h⟩
  | cons op ops ih =>
    intro s h
    obtain ⟨hstep, hinv⟩ := qstep_sim s op h
    obtain ⟨hrest, hinv'⟩ := ih (qstep s op).1 hinv
    refine ⟨?_, hinv'⟩
    unfold absExec qexec
    rw [hstep]
    show ((absExec (contents (qstep s op).1) ops).1,
        (qstep s op).2 :: (absExec (contents (qstep s op).1) ops).2) = _
    rw [hrest]

theorem absExec_fifo (ops : List QOp) :
    ∀ l : List Nat,
      pulledVals (absExec l ops).2 ++ (absExec l ops).1 = l ++ pushedVals (absExec l ops).2 := by
  induction ops with
  | nil =>
    intro l
    simp [absExec, pulledVals, pushedVals]
  | cons op ops ih =>
    intro l
    cases op with
    | push d =>
      unfold absExec absStep absPush
      by_cases hc : l.length < QMAX
      · simp only [if_pos hc, if_true, pulledVals, pushedVals]
        rw [ih (l ++ [d])]
        simp
      · simp only [if_neg hc, pulledVals, pushedVals]
        exact ih l
    | pull =>
      cases l with
      | nil =>
        unfold absExec absStep absPull
        simp only [pulledVals, pushedVals]
        exact ih []
      | cons x xs =>
        unfold absExec absStep absPull
        simp only [pulledVals, pushedVals]
        rw [List.cons_append, ih xs]
        rfl

theorem contents_qinit : contents qinit = [] := rfl

/-! ## Register lemmas -/

theorem not32_mask : not32 (7 <<< 12) = 0xFFFF8FFF := by decide

theorem not32_mask_lit : not32 28672 = 4294938623 := by decide

theorem mask_testBit : ∀ i < 32, Nat.testBit 0xFFFF8FFF i = !(decide (12 ≤ i ∧ i ≤ 14)) := by
  decide

theorem fsel_testBit : ∀ i < 32, Nat.testBit 0x4000 i = decide (i = 14) := by decide

theorem four_testBit : ∀ i < 32, Nat.testBit 4 (i - 12) = decide (i = 14) := by decide

theorem testBit_high (x i : Nat) (hx : x < 2 ^ 32) (hi : ¬ i < 32) : x.testBit i = false :=
  Nat.testBit_lt_two_pow (lt_of_lt_of_le hx (Nat.pow_le_pow_right (by norm_num) (by omega)))

theorem fsel_clock_lt (g : Nat) : (g &&& 0xFFFF8FFF) ||| 0x4000 < 2 ^ 32 :=
  Nat.or_lt_two_pow (Nat.and_lt_two_pow _ (by norm_num)) (by norm_num)

theorem fsel_input_lt (g : Nat) : g &&& 0xFFFF8FFF < 2 ^ 32 :=
  Nat.and_lt_two_pow _ (by norm_num)

theorem fsel_clock_bits (g i : Nat) (hg : g < 2 ^ 32) :
    ((g &&& 0xFFFF8FFF) ||| 0x4000).testBit i =
      if 12 ≤ i ∧ i ≤ 14 then Nat.testBit 4 (i - 12) else g.testBit i := by
  rw [Nat.testBit_or, Nat.testBit_and]
  by_cases hi : i < 32
  · rw [mask_testBit i hi, fsel_testBit i hi]
    by_cases h : 12 ≤ i ∧ i ≤ 14
    · rw [if_pos h, four_testBit i hi]
      simp [h]
    · rw [if_neg h]
      have hne : i ≠ 14 := by omega
      simp [h, hne]
  · rw [testBit_high g i hg hi, testBit_high 0x4000 i (by norm_num) hi]
    have h : ¬ (12 ≤ i ∧ i ≤ 14) := by omega
    simp [h]

theorem fsel_input_bits (g i : Nat) (hg : g < 2 ^ 32) :
    (g &&& 0xFFFF8FFF).testBit i = if 12 ≤ i ∧ i ≤ 14 then false else g.testBit i := by
  rw [Nat.testBit_and]
  by_cases hi : i < 32
  · rw [mask_testBit i hi]
    by_cases h : 12 ≤ i ∧ i ≤ 14
    · simp [h]
    · simp [h]
  · rw [testBit_high g i hg hi]
    have h : ¬ (12 ≤ i ∧ i ≤ 14) := by omega
    simp [h]

theorem enable_true_eq (h : Hw) :
    enable_GPCLK0 true h =
      { regs := fun r => if r = .GPCLK0_MODE then 0x5A000216
          else if r = .GPFSEL0 then (h.regs .GPFSEL0 &&& 0xFFFF8FFF) ||| 0x4000 else h.regs r,
        log := h.log ++ enableSeq (h.regs .GPFSEL0) } := by
  have h1 := Nat.mod_eq_of_lt (fsel_clock_lt (h.regs .GPFSEL0))
  simp only [Nat.reducePow] at h1
  simp only [enable_GPCLK0, if_true, writeReg, readReg, not32_mask, enableSeq,
    List.append_assoc, List.singleton_append, Nat.reduceShiftLeft, Nat.reduceOr, Nat.reduceMod,
    Nat.reducePow, not32_mask_lit, h1, Hw.mk.injEq, and_true]
  refine ⟨?_, rfl⟩
  funext r
  cases r <;> simp

theorem enable_false_eq (h : Hw) :
    enable_GPCLK0 false h =
      { regs := fun r => if r = .GPFSEL0 then h.regs .GPFSEL0 &&& 0xFFFF8FFF
          else if r = .GPCLK0_MODE then 0x5A000000 else h.regs r,
        log := h.log ++ disableSeq (h.regs .GPFSEL0) } := by
  have h1 := Nat.mod_eq_of_lt (fsel_input_lt (h.regs .GPFSEL0))
  simp only [Nat.reducePow] at h1
  simp only [enable_GPCLK0, Bool.false_eq_true, if_false, writeReg, readReg, not32_mask,
    disableSeq, List.append_assoc, List.singleton_append, Nat.reduceShiftLeft, Nat.reduceMod,
    Nat.reducePow, not32_mask_lit, h1, Hw.mk.injEq, and_true, reduceIte, reduceCtorEq]

theorem set_GPCLK0_eq (n : Nat) (h : Hw) :
    set_GPCLK0 n h =
      { regs := fun r => if r = .GPCLK0_DIV then divWord n else h.regs r,
        log := h.log ++ [Store.reg .GPCLK0_DIV (divWord n)] } := by
  simp only [set_GPCLK0, writeReg, divWord, Nat.reduceShiftLeft]

theorem divWord_low (d : Nat) : divWord d % 2 ^ 24 = d % 2 ^ 24 := by
  unfold divWord
  apply Nat.eq_of_testBit_eq
  intro i
  simp only [Nat.testBit_mod_two_pow, Nat.testBit_or]
  by_cases hi : i < 24
  · have hz : Nat.testBit 0x5A000000 i = false := by
      interval_cases i <;> decide
    have hi' : i < 32 := by omega
    simp [hz, hi, hi']
  · simp [hi]

theorem divWord_high (d : Nat) (hd : d < 2 ^ 32) : divWord d / 2 ^ 24 = 0x5a ||| d / 2 ^ 24 := by
  have hlt : 0x5A000000 ||| d < 2 ^ 32 := Nat.or_lt_two_pow (by norm_num) hd
  unfold divWord
  rw [Nat.mod_eq_of_lt hlt, ← Nat.shiftRight_eq_div_pow, ← Nat.shiftRight_eq_div_pow]
  apply Nat.eq_of_testBit_eq
  intro i
  rw [Nat.testBit_shiftRight, Nat.testBit_or, Nat.testBit_or, Nat.testBit_shiftRight]
  have hs : Nat.testBit 0x5A000000 (24 + i) = Nat.testBit 0x5a i := by
    have h5 : (0x5A000000 : Nat) = 0x5a <<< 24 := by decide
    rw [h5, Nat.testBit_shiftLeft]
    simp
  rw [hs]

/-! ## Transmitter lemmas -/

theorem divWritten_append (l m : List Store) :
    divWritten (l ++ m) = divWritten l ++ divWritten m := by
  induction l with
  | nil => rfl
  | cons a l ih =>
    cases a with
    | halt => simpa [divWritten] using ih
    | reg r v => cases r <;> simpa [divWritten] using ih

theorem divWritten_map (ds : List Nat) :
    divWritten (ds.map (fun d => Store.reg .GPCLK0_DIV (divWord d))) = ds.map divWord := by
  induction ds with
  | nil => rfl
  | cons d ds ih => simpa [divWritten] using ih

theorem envAct_frame (s : TState) (a : EnvAct) :
    (envAct s a).pc = s.pc ∧ (envAct s a).hw = s.hw ∧ (envAct s a).via = s.via ∧
      (envAct s a).t = s.t ∧ (s.halt = true → (envAct s a).halt = true) := by
  cases a <;> simp [envAct]

theorem foldl_envAct_frame (l : List EnvAct) :
    ∀ s : TState,
      (l.foldl envAct s).pc = s.pc ∧ (l.foldl envAct s).hw = s.hw ∧
        (l.foldl envAct s).via = s.via ∧ (l.foldl envAct s).t = s.t ∧
        (s.halt = true → (l.foldl envAct s).halt = true) := by
  induction l with
  | nil =>
    intro s
    exact ⟨rfl, rfl, rfl, rfl, fun h => h⟩
  | cons a l ih =>
    intro s
    obtain ⟨h1, h2, h3, h4, h5⟩ := ih (envAct s a)
    obtain ⟨e1, e2, e3, e4, e5⟩ := envAct_frame s a
    exact ⟨h1.trans e1, h2.trans e2, h3.trans e3, h4.trans e4, fun h => h5 (e5 h)⟩

theorem others_frame (e : Env) (s : TState) :
    (others e s).pc = s.pc ∧ (others e s).hw = s.hw ∧ (others e s).via = s.via ∧
      (others e s).t = s.t ∧ (s.halt = true → (others e s).halt = true) :=
  foldl_envAct_frame (e.acts s.t) s

theorem TInv_others (e : Env) (l0 : List Store) (g0 : Nat) (s : TState) (h : TInv l0 g0 s) :
    TInv l0 g0 (others e s) := by
  obtain ⟨h1, h2, h3, h4, h5⟩ := others_frame e s
  unfold TInv at *
  rw [h1, h2, h3]
  obtain ⟨a, b, c, d, f⟩ := h
  exact ⟨a, b, c, fun hp => ⟨h5 (d hp).1, (d hp).2⟩, fun hp => ⟨h5 (f hp).1, (f hp).2⟩⟩

theorem TInv_tbody (e : Env) (l0 : List Store) (g0 : Nat) (s : TState) (h : TInv l0 g0 s) :
    TInv l0 g0 (tbody e s) := by
  obtain ⟨a, b, c, d, f⟩ := h
  unfold tbody
  cases hpc : s.pc
  case wait =>
    simp only [hpc, true_or, forall_const] at a
    simp only
    split <;> simp [TInv, a]
  case waitHalt =>
    simp only [hpc, true_or, or_true, forall_const] at a
    simp only
    split
    · rename_i hh
      simp [TInv, a, hh]
    · simp [TInv, a]
  case enable =>
    simp only [hpc, or_true, forall_const] at a
    simp [TInv, enable_true_eq, a]
  case readClk =>
    simp only [hpc, true_or, forall_const] at b
    simp [TInv, b]
  case loopTop =>
    simp only [hpc, true_or, or_true, forall_const] at b
    simp only
    split <;> simp [TInv, b, streamExit]
  case spin =>
    simp only [hpc, true_or, or_true, forall_const] at b
    simp only
    split <;> simp [TInv, b]
  case spinHalt =>
    simp only [hpc, true_or, or_true, forall_const] at b
    simp only
    split <;> simp [TInv, b, streamExit]
  case write =>
    simp only [hpc, true_or, or_true, forall_const] at b
    simp [TInv, set_GPCLK0_eq, b]
  case pull =>
    simp only [hpc, or_true, forall_const] at b
    simp only
    split <;> simp [TInv, b, streamExit]
  case out =>
    simp only [hpc, forall_const] at c
    simp [TInv, c]
  case disable =>
    simp only [hpc, forall_const] at d
    obtain ⟨hh, hg, hv, pre, hl⟩ := d
    simp only [TInv, enable_false_eq, reduceCtorEq, false_or, or_false, or_self,
      IsEmpty.forall_iff, true_and, forall_const, hg, hl, hv]
    exact ⟨hh, Or.inr ⟨pre, rfl⟩⟩
  case done =>
    simp only [hpc, forall_const] at f
    simp only [TInv, hpc, reduceCtorEq, false_or, or_false, or_self, IsEmpty.forall_iff,
      true_and, forall_const]
    exact f

theorem tstep_done (e : Env) (s : TState) (h : s.pc = .done) : tstep e s = s := by
  unfold tstep
  rw [h]

theorem tstep_eq (e : Env) (s : TState) (h : s.pc ≠ .done) :
    tstep e s = tbody e (others e s) := by
  unfold tstep
  cases hpc : s.pc <;> first | rfl | exact absurd hpc h

theorem TInv_tstep (e : Env) (l0 : List Store) (g0 : Nat) (s : TState) (h : TInv l0 g0 s) :
    TInv l0 g0 (tstep e s) := by
  by_cases hd : s.pc = .done
  · rw [tstep_done e s hd]
    exact h
  · rw [tstep_eq e s hd]
    exact TInv_tbody e l0 g0 _ (TInv_others e l0 g0 s h)

theorem TInv_transmit (e : Env) (l0 : List Store) (g0 : Nat) (fuel : Nat) :
    ∀ s : TState, TInv l0 g0 s → TInv l0 g0 (transmit e fuel s) := by
  induction fuel with
  | zero =>
    intro s h
    exact h
  | succ n ih =>
    intro s h
    exact ih (tstep e s) (TInv_tstep e l0 g0 s h)

theorem TInv_tinit (q : QState) (halt : Bool) (hw : Hw) (dv : Nat) :
    TInv hw.log (hw.regs .GPFSEL0) (tinit q halt hw dv) := by
  simp [TInv, tinit]

theorem transmit_done (e : Env) (fuel : Nat) : ∀ s : TState, s.pc = .done → transmit e fuel s = s := by
  induction fuel with
  | zero =>
    intro s _
    rfl
  | succ n ih =>
    intro s h
    show transmit e n (tstep e s) = s
    rw [tstep_done e s h]
    exact ih s h

theorem transmit_add (e : Env) (a b : Nat) :
    ∀ s : TState, transmit e (a + b) s = transmit e b (transmit e a s) := by
  induction a with
  | zero =>
    intro s
    rw [Nat.zero_add]
    rfl
  | succ n ih =>
    intro s
    rw [Nat.succ_add]
    exact ih (tstep e s)

theorem others_quiet (c : Nat → Nat) (s : TState) : others (quietEnv c) s = s := rfl

theorem tstep_quiet (c : Nat → Nat) (s : TState) (h : s.pc ≠ .done) :
    tstep (quietEnv c) s = tbody (quietEnv c) s := by
  rw [tstep_eq _ s h, others_quiet]

theorem spin_reaches (c : Nat → Nat) (n : Nat) :
    ∀ s : TState, s.pc = .spin → s.halt = false →
      spinCond (c (s.k + n)) s.next = false →
      ∃ fuel, (transmit (quietEnv c) fuel s).pc = .write ∧
        (transmit (quietEnv c) fuel s).q = s.q ∧
        (transmit (quietEnv c) fuel s).halt = false ∧
        (transmit (quietEnv c) fuel s).hw = s.hw ∧
        (transmit (quietEnv c) fuel s).divisor = s.divisor ∧
        (transmit (quietEnv c) fuel s).next = s.next ∧
        (transmit (quietEnv c) fuel s).via = s.via := by
  induction n using Nat.strong_induction_on with
  | _ n ih =>
    intro s hpc hh hr
    by_cases hnow : spinCond (c s.k) s.next = true
    · -- not yet: one load of SYSCLK, one look at halt, and round again
      have hn : n ≠ 0 := by
        intro h0
        rw [h0, Nat.add_zero, hnow] at hr
        exact Bool.noConfusion hr
      have h1 : tstep (quietEnv c) s =
          { s with lastclk := c s.k % 2 ^ 64, k := s.k + 1, pc := .spinHalt, t := s.t + 1 } := by
        rw [tstep_quiet c s (by rw [hpc]; decide)]
        simp [tbody, hpc, quietEnv, hnow]
      have h2 : tstep (quietEnv c) (tstep (quietEnv c) s) =
          { s with lastclk := c s.k % 2 ^ 64, k := s.k + 1, pc := .spin, t := s.t + 1 + 1 } := by
        rw [h1, tstep_quiet c _ (by simp)]
        simp [tbody, hh]
      obtain ⟨fuel, f1, f2, f3, f4, f5, f6, f7⟩ :=
        ih (n - 1) (by omega)
          { s with lastclk := c s.k % 2 ^ 64, k := s.k + 1, pc := .spin, t := s.t + 1 + 1 }
          rfl hh (by
            show spinCond (c (s.k + 1 + (n - 1))) s.next = false
            have : s.k + 1 + (n - 1) = s.k + n := by omega
            rw [this]
            exact hr)
      have e2 : transmit (quietEnv c) 2 s =
          { s with lastclk := c s.k % 2 ^ 64, k := s.k + 1, pc := .spin, t := s.t + 1 + 1 } := h2
      refine ⟨2 + fuel, ?_⟩
      rw [transmit_add, e2]
      exact ⟨f1, f2, f3, f4, f5, f6, f7⟩
    · have h1 : tstep (quietEnv c) s =
          { s with lastclk := c s.k % 2 ^ 64, k := s.k + 1, pc := .write, t := s.t + 1 } := by
        rw [tstep_quiet c s (by rw [hpc]; decide)]
        simp [tbody, hpc, quietEnv, hnow]
      have e1 : transmit (quietEnv c) 1 s =
          { s with lastclk := c s.k % 2 ^ 64, k := s.k + 1, pc := .write, t := s.t + 1 } := h1
      refine ⟨1, ?_⟩
      rw [e1]
      exact ⟨rfl, rfl, hh, rfl, rfl, rfl, rfl⟩

theorem step_wait_ok (c : Nat → Nat) (s : TState) (hpc : s.pc = .wait) (hq : s.q.qcount ≠ 0) :
    tstep (quietEnv c) s =
      { s with q := (qpull s.q s.divisor).2.2, divisor := (qpull s.q s.divisor).2.1,
               pc := .enable, t := s.t + 1 } := by
  rw [tstep_quiet c s (by rw [hpc]; decide)]
  simp [tbody, hpc, qpull_ok s.q s.divisor hq]

theorem step_enable (c : Nat → Nat) (s : TState) (hpc : s.pc = .enable) :
    tstep (quietEnv c) s =
      { s with hw := enable_GPCLK0 true s.hw, pc := .readClk, t := s.t + 1 } := by
  rw [tstep_quiet c s (by rw [hpc]; decide)]
  simp [tbody, hpc]

theorem step_readClk (c : Nat → Nat) (s : TState) (hpc : s.pc = .readClk) :
    tstep (quietEnv c) s =
      { s with next := c s.k % 2 ^ 64, lastclk := c s.k % 2 ^ 64, k := s.k + 1,
               pc := .loopTop, t := s.t + 1 } := by
  rw [tstep_quiet c s (by rw [hpc]; decide)]
  simp [tbody, hpc, quietEnv]

theorem step_loopTop (c : Nat → Nat) (s : TState) (hpc : s.pc = .loopTop)
    (hh : s.halt = false) :
    tstep (quietEnv c) s = { s with pc := .spin, t := s.t + 1 } := by
  rw [tstep_quiet c s (by rw [hpc]; decide)]
  simp [tbody, hpc, hh]

theorem step_write (c : Nat → Nat) (s : TState) (hpc : s.pc = .write) :
    tstep (quietEnv c) s =
      { s with hw := set_GPCLK0 s.divisor s.hw, pc := .pull, t := s.t + 1 } := by
  rw [tstep_quiet c s (by rw [hpc]; decide)]
  simp [tbody, hpc]

theorem step_pull_ok (c : Nat → Nat) (s : TState) (hpc : s.pc = .pull) (hq : s.q.qcount ≠ 0) :
    tstep (quietEnv c) s =
      { s with q := (qpull s.q s.divisor).2.2, divisor := (qpull s.q s.divisor).2.1,
               next := (s.next + USECS_PER_SAMPLE) % 2 ^ 64, pc := .loopTop, t := s.t + 1 } := by
  rw [tstep_quiet c s (by rw [hpc]; decide)]
  simp [tbody, hpc, qpull_ok s.q s.divisor hq]

theorem step_pull_empty (c : Nat → Nat) (s : TState) (hpc : s.pc = .pull)
    (hq : s.q.qcount = 0) :
    tstep (quietEnv c) s = { s with pc := .out, via := some .underflow, t := s.t + 1 } := by
  rw [tstep_quiet c s (by rw [hpc]; decide)]
  simp [tbody, hpc, qpull_empty s.q s.divisor hq]

theorem step_out (c : Nat → Nat) (s : TState) (hpc : s.pc = .out) :
    tstep (quietEnv c) s =
      { s with halt := true, hw := { s.hw with log := s.hw.log ++ [Store.halt] },
               pc := .disable, t := s.t + 1 } := by
  rw [tstep_quiet c s (by rw [hpc]; decide)]
  simp [tbody, hpc]

theorem step_disable (c : Nat → Nat) (s : TState) (hpc : s.pc = .disable) :
    tstep (quietEnv c) s =
      { s with hw := enable_GPCLK0 false s.hw, pc := .done, t := s.t + 1 } := by
  rw [tstep_quiet c s (by rw [hpc]; decide)]
  simp [tbody, hpc]

theorem deadline_succ (start j : Nat) :
    (deadline start j + USECS_PER_SAMPLE) % 2 ^ 64 = deadline start (j + 1) := by
  unfold deadline USECS_PER_SAMPLE SAMPLES_PER_SECOND
  omega

theorem contents_nil_iff (q : QState) : contents q = [] ↔ q.qcount = 0 := by
  rw [← contents_length q]
  exact List.length_eq_zero.symm

theorem stream_tail (c : Nat → Nat) (s : TState) (hpc : s.pc = .pull) (hq : s.q.qcount = 0) :
    (transmit (quietEnv c) 3 s).pc = .done ∧
      (transmit (quietEnv c) 3 s).halt = true ∧
      (transmit (quietEnv c) 3 s).via = some .underflow ∧
      (transmit (quietEnv c) 3 s).hw.log =
        s.hw.log ++ [Store.halt] ++ disableSeq (s.hw.regs .GPFSEL0) := by
  have e : transmit (quietEnv c) 3 s =
      tstep (quietEnv c) (tstep (quietEnv c) (tstep (quietEnv c) s)) := rfl
  rw [e, step_pull_empty c s hpc hq,
    step_out c { s with pc := .out, via := some .underflow, t := s.t + 1 } rfl,
    step_disable c
      { s with halt := true, hw := { s.hw with log := s.hw.log ++ [Store.halt] },
               pc := .disable, via := some .underflow, t := s.t + 1 + 1 } rfl]
  simp [enable_false_eq]

theorem stream_one (c : Nat → Nat) (s : TState) (hpc : s.pc = .loopTop) (hh : s.halt = false)
    (hclk : ∃ k, s.k ≤ k ∧ spinCond (c k) s.next = false) :
    ∃ fuel s', transmit (quietEnv c) fuel s = s' ∧ s'.pc = .pull ∧ s'.q = s.q ∧ s'.halt = false ∧
      s'.hw.log = s.hw.log ++ [Store.reg .GPCLK0_DIV (divWord s.divisor)] ∧
      s'.hw.regs .GPFSEL0 = s.hw.regs .GPFSEL0 ∧
      s'.divisor = s.divisor ∧ s'.next = s.next := by
  obtain ⟨k, hk, hr⟩ := hclk
  have e1 : transmit (quietEnv c) 1 s = { s with pc := .spin, t := s.t + 1 } :=
    step_loopTop c s hpc hh
  obtain ⟨f, hf⟩ :=
    spin_reaches c (k - s.k) { s with pc := .spin, t := s.t + 1 } rfl hh (by
      show spinCond (c (s.k + (k - s.k))) s.next = false
      have : s.k + (k - s.k) = k := by omega
      rw [this]
      exact hr)
  obtain ⟨s2, hs2⟩ : ∃ s2, transmit (quietEnv c) f { s with pc := .spin, t := s.t + 1 } = s2 :=
    ⟨_, rfl⟩
  rw [hs2] at hf
  obtain ⟨f1, f2, f3, f4, f5, f6, _⟩ := hf
  have e2 : transmit (quietEnv c) 1 s2 =
      { s2 with hw := set_GPCLK0 s2.divisor s2.hw, pc := .pull, t := s2.t + 1 } :=
    step_write c s2 f1
  refine ⟨1 + (f + 1), _, rfl, ?_⟩
  rw [transmit_add, e1, transmit_add, hs2, e2]
  refine ⟨rfl, f2, f3, ?_, ?_, f5, f6⟩
  · show (set_GPCLK0 s2.divisor s2.hw).log = _
    rw [set_GPCLK0_eq, f4, f5]
  · show (set_GPCLK0 s2.divisor s2.hw).regs .GPFSEL0 = _
    rw [set_GPCLK0_eq, f4]
    rfl

theorem stream_drains (c : Nat → Nat) (rest : List Nat) :
    ∀ (s : TState) (j : Nat), s.pc = .loopTop → s.halt = false → QInv s.q →
      contents s.q = rest → s.next = deadline (c 0) j →
      (∀ i, i ≤ rest.length →
        ∀ k0, ∃ k, k0 ≤ k ∧ spinCond (c k) (deadline (c 0) (j + i)) = false) →
      ∃ fuel, (transmit (quietEnv c) fuel s).pc = .done ∧
        (transmit (quietEnv c) fuel s).halt = true ∧
        (transmit (quietEnv c) fuel s).via = some .underflow ∧
        (transmit (quietEnv c) fuel s).hw.log =
          s.hw.log ++ divStores (s.divisor :: rest) ++ [Store.halt] ++
            disableSeq (s.hw.regs .GPFSEL0) := by
  induction rest with
  | nil =>
    intro s j hpc hh _ hc hn hclk
    obtain ⟨f, s2, hs2, p1, p2, _, p4, p5, _, _⟩ := stream_one c s hpc hh (by
      have := hclk 0 (Nat.le_refl _) s.k
      rw [Nat.add_zero, ← hn] at this
      exact this)
    obtain ⟨g1, g2, g3, g4⟩ := stream_tail c s2 p1 (by
      rw [p2]
      exact (contents_nil_iff s.q).mp hc)
    refine ⟨f + 3, ?_⟩
    rw [transmit_add, hs2]
    refine ⟨g1, g2, g3, ?_⟩
    rw [g4, p4, p5]
    rfl
  | cons d rest ih =>
    intro s j hpc hh hinv hc hn hclk
    obtain ⟨f, s2, hs2, p1, p2, p3, p4, p5, p6, p7⟩ := stream_one c s hpc hh (by
      have := hclk 0 (Nat.zero_le _) s.k
      rw [Nat.add_zero, ← hn] at this
      exact this)
    have hne : s.q.qcount ≠ 0 := by
      intro h0
      rw [(contents_nil_iff s.q).mpr h0] at hc
      exact List.noConfusion hc
    have hpull := contents_qpull s.q s.divisor hinv hne
    rw [hc] at hpull
    have hd : (qpull s.q s.divisor).2.1 = d := (List.cons.inj hpull).1.symm
    have hrest : contents (qpull s.q s.divisor).2.2 = rest := (List.cons.inj hpull).2.symm
    have e3 := step_pull_ok c s2 p1 (by rw [p2]; exact hne)
    rw [p2, p6, p7] at e3
    obtain ⟨fuel, i1, i2, i3, i4⟩ := ih
      { s2 with q := (qpull s.q s.divisor).2.2, divisor := (qpull s.q s.divisor).2.1,
                next := (s.next + USECS_PER_SAMPLE) % 2 ^ 64, pc := .loopTop, t := s2.t + 1 }
      (j + 1) rfl p3 (QInv_qpull s.q s.divisor hinv) hrest
      (by
        show (s.next + USECS_PER_SAMPLE) % 2 ^ 64 = deadline (c 0) (j + 1)
        rw [hn]
        exact deadline_succ (c 0) j)
      (by
        intro i hi k0
        have := hclk (i + 1) (by simp only [List.length_cons]; omega) k0
        rw [show j + 1 + i = j + (i + 1) by omega]
        exact this)
    refine ⟨f + (1 + fuel), ?_⟩
    have e3' : transmit (quietEnv c) 1 s2 = _ := e3
    rw [transmit_add, hs2, transmit_add, e3']
    refine ⟨i1, i2, i3, ?_⟩
    rw [i4]
    show s2.hw.log ++ divStores ((qpull s.q s.divisor).2.1 :: rest) ++ [Store.halt] ++
        disableSeq (s2.hw.regs .GPFSEL0) = _
    rw [p4, p5, hd]
    simp [divStores]

theorem transmit_start (c : Nat → Nat) (q : QState) (hw : Hw) (dv : Nat) (hq : q.qcount ≠ 0) :
    transmit (quietEnv c) 3 (tinit q false hw dv) =
      { pc := .loopTop, q := (qpull q dv).2.2, halt := false, hw := enable_GPCLK0 true hw,
        divisor := (qpull q dv).2.1, next := c 0 % 2 ^ 64, t := 3, k := 1, via := none,
        lastclk := c 0 % 2 ^ 64 } := by
  have e : transmit (quietEnv c) 3 (tinit q false hw dv) =
      tstep (quietEnv c) (tstep (quietEnv c) (tstep (quietEnv c) (tinit q false hw dv))) := rfl
  have h1 : tstep (quietEnv c) (tinit q false hw dv) =
      { pc := .enable, q := (qpull q dv).2.2, halt := false, hw := hw,
        divisor := (qpull q dv).2.1, next := 0, t := 1, k := 0, via := none, lastclk := 0 } := by
    rw [step_wait_ok c (tinit q false hw dv) rfl hq]
    rfl
  have h2 : tstep (quietEnv c)
      { pc := .enable, q := (qpull q dv).2.2, halt := false, hw := hw,
        divisor := (qpull q dv).2.1, next := 0, t := 1, k := 0, via := none, lastclk := 0 } =
      { pc := .readClk, q := (qpull q dv).2.2, halt := false, hw := enable_GPCLK0 true hw,
        divisor := (qpull q dv).2.1, next := 0, t := 2, k := 0, via := none, lastclk := 0 } := by
    rw [step_enable c _ rfl]
  have h3 : tstep (quietEnv c)
      { pc := .readClk, q := (qpull q dv).2.2, halt := false, hw := enable_GPCLK0 true hw,
        divisor := (qpull q dv).2.1, next := 0, t := 2, k := 0, via := none, lastclk := 0 } =
      { pc := .loopTop, q := (qpull q dv).2.2, halt := false, hw := enable_GPCLK0 true hw,
        divisor := (qpull q dv).2.1, next := c 0 % 2 ^ 64, t := 3, k := 1, via := none,
        lastclk := c 0 % 2 ^ 64 } := by
    rw [step_readClk c _ rfl]
  rw [e, h1, h2, h3]

/-! ## Divisor lemmas -/

theorem toU32_some (t : Int) (d : Nat)
    (h : (if 0 ≤ t ∧ t < 2 ^ 32 then some t.toNat else none) = some d) :
    (d : Int) = t := by
  by_cases ht : 0 ≤ t ∧ t < 2 ^ 32
  · rw [if_pos ht] at h
    rw [← Option.some.inj h, Int.toNat_of_nonneg ht.1]
  · rw [if_neg ht] at h
    exact Option.noConfusion h

theorem toU32_trunc (a : Fl) (d : Nat) (h : toU32 a = some d) :
    (0 ≤ a.e → (d : Int) = a.m * 2 ^ a.e.toNat) ∧
      (a.e < 0 →
        (0 ≤ a.m →
          (d : Int) * 2 ^ (-a.e).toNat ≤ a.m ∧ a.m < ((d : Int) + 1) * 2 ^ (-a.e).toNat) ∧
        (a.m < 0 → d = 0 ∧ -(2 ^ (-a.e).toNat : Int) < a.m)) := by
  have hd := toU32_some _ d h
  have hB : (0 : Int) < 2 ^ (-a.e).toNat := by positivity
  refine ⟨fun he => ?_, fun he => ⟨fun hm => ?_, fun hm => ?_⟩⟩
  · rw [hd, if_pos he]
  · rw [if_neg (by omega), Int.tdiv_eq_ediv hm hB.le] at hd
    rw [hd]
    exact ⟨Int.ediv_mul_le _ hB.ne', Int.lt_ediv_add_one_mul_self _ hB⟩
  · rw [if_neg (by omega)] at hd
    have hneg : Int.tdiv a.m (2 ^ (-a.e).toNat) = -((-a.m) / 2 ^ (-a.e).toNat) := by
      rw [← Int.tdiv_eq_ediv (by omega) hB.le, Int.neg_tdiv, neg_neg]
    have hq : 0 ≤ (-a.m) / 2 ^ (-a.e).toNat := Int.ediv_nonneg (by omega) hB.le
    have hz : (-a.m) / 2 ^ (-a.e).toNat = 0 := by omega
    have hlt := Int.lt_ediv_add_one_mul_self (-a.m) hB
    rw [hz] at hlt
    constructor
    · omega
    · omega

/-! ## The queue: claims -/

/-- C1: every finite sequence of `qpush` and `qpull` calls from the empty queue is seen to do
exactly what the same calls do on the abstract list queue bounded by `QMAX`, the ring buffer
holds the abstract queue's list at the end, and the values returned by the successful pulls
followed by the values still queued are the values accepted by the successful pushes: the
pulled values are a prefix of the accepted values, in order. -/
theorem qexec_refines_fifo (ops : List QOp) :
    (qexec qinit ops).2 = (absExec [] ops).2 ∧
      contents (qexec qinit ops).1 = (absExec [] ops).1 ∧
      pulledVals (qexec qinit ops).2 ++ contents (qexec qinit ops).1 =
        pushedVals (qexec qinit ops).2 ∧
      pulledVals (qexec qinit ops).2 <+: pushedVals (qexec qinit ops).2 := by
  have hsim := (qexec_sim ops qinit QInv_qinit).1
  rw [contents_qinit] at hsim
  have hfifo := absExec_fifo ops []
  rw [hsim] at hfifo
  simp only [List.nil_append] at hfifo
  refine ⟨?_, ?_, hfifo, ⟨contents (qexec qinit ops).1, hfifo⟩⟩
  · rw [hsim]
  · rw [hsim]

/-- C2: in a state with `qhead < QMAX` and `qcount <= QMAX`, `qpush d` returns true iff
`qcount < QMAX`; on true it stores `d` at index `(qhead + qcount) mod QMAX`, adds one to
`qcount`, and leaves `qhead` and every other slot as they were; on false the array, `qhead`
and `qcount` are all unchanged. -/
theorem qpush_spec (s : QState) (d : Nat) (hh : s.qhead < QMAX) (hc : s.qcount ≤ QMAX) :
    ((qpush s d).1 = true ↔ s.qcount < QMAX) ∧
      ((qpush s d).1 = true →
        (qpush s d).2.queue ((s.qhead + s.qcount) % QMAX) = d ∧
          (qpush s d).2.qcount = s.qcount + 1 ∧
          (qpush s d).2.qhead = s.qhead ∧
          ∀ i, i ≠ (s.qhead + s.qcount) % QMAX → (qpush s d).2.queue i = s.queue i) ∧
      ((qpush s d).1 = false → (qpush s d).2 = s) := by
  have hidx : qpushIndex s = (s.qhead + s.qcount) % QMAX := by
    unfold qpushIndex QMAX SAMPLES_PER_SECOND at *
    omega
  by_cases hlt : s.qcount < QMAX
  · have hq : (s.qcount + 1) % 2 ^ 32 = s.qcount + 1 := by
      unfold QMAX SAMPLES_PER_SECOND at hlt
      omega
    rw [qpush_ok s d hlt]
    refine ⟨⟨fun _ => hlt, fun _ => rfl⟩, fun _ => ⟨?_, hq, rfl, ?_⟩, fun hf => ?_⟩
    · show (if (s.qhead + s.qcount) % QMAX = qpushIndex s then d else _) = d
      rw [if_pos hidx.symm]
    · intro i hi
      show (if i = qpushIndex s then d else s.queue i) = s.queue i
      rw [hidx, if_neg hi]
    · exact Bool.noConfusion hf
  · rw [qpush_full s d hlt]
    exact ⟨⟨fun ht => Bool.noConfusion ht, fun h => absurd h hlt⟩,
      fun ht => Bool.noConfusion ht, fun _ => rfl⟩

/-- C2 at a state whose write index wraps round: `qhead = 19999`, `qcount = 3`, `d = 7`. -/
theorem qpush_spec_witness :
    ((qpush ⟨fun i => i, 19999, 3⟩ 7).1 = true ↔ 3 < QMAX) ∧
      ((qpush ⟨fun i => i, 19999, 3⟩ 7).1 = true →
        (qpush ⟨fun i => i, 19999, 3⟩ 7).2.queue ((19999 + 3) % QMAX) = 7 ∧
          (qpush ⟨fun i => i, 19999, 3⟩ 7).2.qcount = 3 + 1 ∧
          (qpush ⟨fun i => i, 19999, 3⟩ 7).2.qhead = 19999 ∧
          ∀ i, i ≠ (19999 + 3) % QMAX → (qpush ⟨fun i => i, 19999, 3⟩ 7).2.queue i = i) ∧
      ((qpush ⟨fun i => i, 19999, 3⟩ 7).1 = false →
        (qpush ⟨fun i => i, 19999, 3⟩ 7).2 = ⟨fun i => i, 19999, 3⟩) :=
  qpush_spec ⟨fun i => i, 19999, 3⟩ 7 (by decide) (by decide)

/-- C3: in a state with `qhead < QMAX` and `qcount <= QMAX`, `qpull` returns true iff
`qcount > 0`; on true the output is `queue[qhead]`, `qhead` becomes `(qhead + 1) mod QMAX`,
`qcount` drops by one and the array is unchanged; on false the queue state and the caller's
output variable are both unchanged. -/
theorem qpull_spec (s : QState) (d : Nat) (hh : s.qhead < QMAX) (hc : s.qcount ≤ QMAX) :
    ((qpull s d).1 = true ↔ 0 < s.qcount) ∧
      ((qpull s d).1 = true →
        (qpull s d).2.1 = s.queue s.qhead ∧
          (qpull s d).2.2.qhead = (s.qhead + 1) % QMAX ∧
          (qpull s d).2.2.qcount + 1 = s.qcount ∧
          (qpull s d).2.2.queue = s.queue) ∧
      ((qpull s d).1 = false → (qpull s d).2.2 = s ∧ (qpull s d).2.1 = d) := by
  by_cases hz : s.qcount = 0
  · rw [qpull_empty s d hz]
    exact ⟨⟨fun ht => Bool.noConfusion ht, fun h => absurd hz (by omega)⟩,
      fun ht => Bool.noConfusion ht, fun _ => ⟨rfl, rfl⟩⟩
  · rw [qpull_ok s d hz]
    have hhead : (s.qhead + 1) % 2 ^ 32 % QMAX = (s.qhead + 1) % QMAX := by
      unfold QMAX SAMPLES_PER_SECOND at *
      omega
    have hcnt : (s.qcount + 2 ^ 32 - 1) % 2 ^ 32 + 1 = s.qcount := by
      unfold QMAX SAMPLES_PER_SECOND at *
      omega
    exact ⟨⟨fun _ => by omega, fun _ => rfl⟩, fun _ => ⟨rfl, hhead, hcnt, rfl⟩,
      fun hf => Bool.noConfusion hf⟩

/-- C3 at a state whose head wraps round: `qhead = 19999`, `qcount = 3`, `*d = 5` before. -/
theorem qpull_spec_witness :
    ((qpull ⟨fun i => i, 19999, 3⟩ 5).1 = true ↔ 0 < 3) ∧
      ((qpull ⟨fun i => i, 19999, 3⟩ 5).1 = true →
        (qpull ⟨fun i => i, 19999, 3⟩ 5).2.1 = 19999 ∧
          (qpull ⟨fun i => i, 19999, 3⟩ 5).2.2.qhead = (19999 + 1) % QMAX ∧
          (qpull ⟨fun i => i, 19999, 3⟩ 5).2.2.qcount + 1 = 3 ∧
          (qpull ⟨fun i => i, 19999, 3⟩ 5).2.2.queue = fun i => i) ∧
      ((qpull ⟨fun i => i, 19999, 3⟩ 5).1 = false →
        (qpull ⟨fun i => i, 19999, 3⟩ 5).2.2 = ⟨fun i => i, 19999, 3⟩ ∧
          (qpull ⟨fun i => i, 19999, 3⟩ 5).2.1 = 5) :=
  qpull_spec ⟨fun i => i, 19999, 3⟩ 5 (by decide) (by decide)

/-- C4: `qcount <= QMAX` together with `qhead < QMAX` holds of the initial globals and is
kept by every `qpush` and every `qpull`; so after every finite sequence of calls from the
initial globals the predicate holds, the 32-bit sum `qhead + qcount` does not overflow, and
both the index `qpush` writes and the index `qpull` reads are below `QMAX`. -/
theorem queue_invariant :
    QInv qinit ∧
      (∀ (s : QState) (d : Nat), QInv s → QInv (qpush s d).2) ∧
      (∀ (s : QState) (d : Nat), QInv s → QInv (qpull s d).2.2) ∧
      ∀ ops : List QOp,
        QInv (qexec qinit ops).1 ∧
          (qexec qinit ops).1.qhead + (qexec qinit ops).1.qcount < 2 ^ 32 ∧
          qpushIndex (qexec qinit ops).1 =
            ((qexec qinit ops).1.qhead + (qexec qinit ops).1.qcount) % QMAX ∧
          qpushIndex (qexec qinit ops).1 < QMAX ∧
          qpullIndex (qexec qinit ops).1 < QMAX := by
  refine ⟨QInv_qinit, QInv_qpush, QInv_qpull, fun ops => ?_⟩
  have hinv := (qexec_sim ops qinit QInv_qinit).2
  refine ⟨hinv, ?_, ?_, ?_, hinv.2⟩
  · have h := hinv
    unfold QInv QMAX SAMPLES_PER_SECOND at h
    omega
  · have h := hinv
    unfold QInv QMAX SAMPLES_PER_SECOND at h
    unfold qpushIndex QMAX SAMPLES_PER_SECOND
    omega
  · unfold qpushIndex QMAX SAMPLES_PER_SECOND
    omega

/-- C4 at concrete inputs: the step lemmas applied to a full queue whose head is the last
slot, and the reachable-state bounds after two pushes and a pull. -/
theorem queue_invariant_witness :
    QInv (qpush ⟨fun _ => 0, 19999, 20000⟩ 9).2 ∧
      QInv (qpull ⟨fun _ => 0, 19999, 20000⟩ 0).2.2 ∧
      qpullIndex (qexec qinit [QOp.push 4, QOp.push 5, QOp.pull]).1 < QMAX :=
  ⟨queue_invariant.2.1 ⟨fun _ => 0, 19999, 20000⟩ 9 (by decide),
    queue_invariant.2.2.1 ⟨fun _ => 0, 19999, 20000⟩ 0 (by decide),
    (queue_invariant.2.2.2 [QOp.push 4, QOp.push 5, QOp.pull]).2.2.2.2⟩

/-! ## The clock registers: claims -/

/-- C5: for every prior 32-bit value `g` of the pin-function-select register,
`enable_GPCLK0(true)` makes exactly four stores, in this order: `GPFSEL0` gets `g` with bits
12..14 replaced by the value 4, then `GPCLK0_MODE` gets `0x5A000020`, then `0x5A000010`, then
`0x5A000216`; nothing else is stored. -/
theorem enable_GPCLK0_true_stores (h : Hw) (hg : h.regs .GPFSEL0 < 2 ^ 32) :
    ∃ v : Nat,
      (enable_GPCLK0 true h).log =
          h.log ++ [Store.reg .GPFSEL0 v, Store.reg .GPCLK0_MODE 0x5A000020,
            Store.reg .GPCLK0_MODE 0x5A000010, Store.reg .GPCLK0_MODE 0x5A000216] ∧
        ∀ i : Nat, v.testBit i =
          if 12 ≤ i ∧ i ≤ 14 then Nat.testBit 4 (i - 12) else (h.regs .GPFSEL0).testBit i := by
  refine ⟨(h.regs .GPFSEL0 &&& 0xFFFF8FFF) ||| 0x4000, ?_, fun i => fsel_clock_bits _ i hg⟩
  rw [enable_true_eq]
  rfl

/-- C5 with `GPFSEL0 = 0x12345678` and an empty log. -/
theorem enable_GPCLK0_true_stores_witness :
    ∃ v : Nat,
      (enable_GPCLK0 true { regs := fun _ => 0x12345678, log := [] }).log =
          [] ++ [Store.reg .GPFSEL0 v, Store.reg .GPCLK0_MODE 0x5A000020,
            Store.reg .GPCLK0_MODE 0x5A000010, Store.reg .GPCLK0_MODE 0x5A000216] ∧
        ∀ i : Nat, v.testBit i =
          if 12 ≤ i ∧ i ≤ 14 then Nat.testBit 4 (i - 12) else Nat.testBit 0x12345678 i :=
  enable_GPCLK0_true_stores { regs := fun _ => 0x12345678, log := [] } (by decide)

/-- C6: for every prior 32-bit value `g` of the pin-function-select register,
`enable_GPCLK0(false)` makes exactly two stores, in this order: `GPCLK0_MODE` gets
`0x5A000000`, then `GPFSEL0` gets `g` with bits 12..14 cleared. -/
theorem enable_GPCLK0_false_stores (h : Hw) (hg : h.regs .GPFSEL0 < 2 ^ 32) :
    ∃ v : Nat,
      (enable_GPCLK0 false h).log =
          h.log ++ [Store.reg .GPCLK0_MODE 0x5A000000, Store.reg .GPFSEL0 v] ∧
        ∀ i : Nat, v.testBit i =
          if 12 ≤ i ∧ i ≤ 14 then false else (h.regs .GPFSEL0).testBit i := by
  refine ⟨h.regs .GPFSEL0 &&& 0xFFFF8FFF, ?_, fun i => fsel_input_bits _ i hg⟩
  rw [enable_false_eq]
  rfl

/-- C6 with `GPFSEL0 = 0x12345678` and an empty log. -/
theorem enable_GPCLK0_false_stores_witness :
    ∃ v : Nat,
      (enable_GPCLK0 false { regs := fun _ => 0x12345678, log := [] }).log =
          [] ++ [Store.reg .GPCLK0_MODE 0x5A000000, Store.reg .GPFSEL0 v] ∧
        ∀ i : Nat, v.testBit i =
          if 12 ≤ i ∧ i ≤ 14 then false else Nat.testBit 0x12345678 i :=
  enable_GPCLK0_false_stores { regs := fun _ => 0x12345678, log := [] } (by decide)

/-- C7 fails as stated: `set_GPCLK0(0x01000000)` stores `0x5B000000`, whose top byte is
`0x5b`, not the tag `0x5a`. -/
theorem set_GPCLK0_tag_counterexample :
    (set_GPCLK0 0x01000000 { regs := fun _ => 0, log := [] }).log =
        [Store.reg .GPCLK0_DIV 0x5B000000] ∧
      (0x5B000000 : Nat) / 2 ^ 24 ≠ 0x5a := by
  decide

/-- C7 as amended: for every 32-bit `d`, `set_GPCLK0(d)` makes exactly one store, of the
word `0x5A000000 | d` to `GPCLK0_DIV`; its low 24 bits are the low 24 bits of `d` and its top
byte is `0x5a | (d >> 24)`; when `d` is in the documented range `0..0xffffff` the top byte
is the tag `0x5a` and the low 24 bits are `d`. -/
theorem set_GPCLK0_store (d : Nat) (h : Hw) (hd : d < 2 ^ 32) :
    ∃ w : Nat,
      (set_GPCLK0 d h).log = h.log ++ [Store.reg .GPCLK0_DIV w] ∧
        w = 0x5A000000 ||| d ∧
        w % 2 ^ 24 = d % 2 ^ 24 ∧
        w / 2 ^ 24 = 0x5a ||| d / 2 ^ 24 ∧
        (d < 2 ^ 24 → w / 2 ^ 24 = 0x5a ∧ w % 2 ^ 24 = d) := by
  have hlt : 0x5A000000 ||| d < 2 ^ 32 := Nat.or_lt_two_pow (by norm_num) hd
  have hw : divWord d = 0x5A000000 ||| d := by
    unfold divWord
    exact Nat.mod_eq_of_lt hlt
  refine ⟨divWord d, ?_, hw, divWord_low d, divWord_high d hd, fun hs => ⟨?_, ?_⟩⟩
  · rw [set_GPCLK0_eq]
  · rw [divWord_high d hd, Nat.div_eq_of_lt hs]
    rfl
  · rw [divWord_low d, Nat.mod_eq_of_lt hs]

/-- C7 as amended, at the divisor `20378` of the carrier 100.5 MHz. -/
theorem set_GPCLK0_store_witness :
    ∃ w : Nat,
      (set_GPCLK0 20378 { regs := fun _ => 0, log := [] }).log =
          [] ++ [Store.reg .GPCLK0_DIV w] ∧
        w = 0x5A000000 ||| 20378 ∧
        w % 2 ^ 24 = 20378 % 2 ^ 24 ∧
        w / 2 ^ 24 = 0x5a ||| 20378 / 2 ^ 24 ∧
        (20378 < 2 ^ 24 → w / 2 ^ 24 = 0x5a ∧ w % 2 ^ 24 = 20378) :=
  set_GPCLK0_store 20378 { regs := fun _ => 0, log := [] } (by decide)

/-! ## The transmitter: claims -/

/-- C8: for every `n >= 1` and every queue holding the `n` divisors `ds` when `transmit`
starts, if no other context pushes or sets `halt` and every deadline is reached by some later
load of `SYSCLK`, then `transmit` returns (there is a number of steps from which on the run
is finished), and what it stored is: the enable sequence, then one `set_GPCLK0` store for each
of `d1..dn` in FIFO order, so exactly `n` words to `GPCLK0_DIV`, and only then `halt=true`
followed by the disable sequence. -/
theorem transmit_drains_queue (c : Nat → Nat) (q : QState) (hw : Hw) (dv : Nat) (ds : List Nat)
    (hn : 1 ≤ ds.length) (hinv : QInv q) (hq : contents q = ds)
    (hclk : ∀ j, j < ds.length →
      ∀ k0, ∃ k, k0 ≤ k ∧ spinCond (c k) (deadline (c 0) j) = false) :
    ∃ fuel, ∀ fuel', fuel ≤ fuel' →
      (transmit (quietEnv c) fuel' (tinit q false hw dv)).pc = .done ∧
        (transmit (quietEnv c) fuel' (tinit q false hw dv)).halt = true ∧
        (transmit (quietEnv c) fuel' (tinit q false hw dv)).via = some .underflow ∧
        (transmit (quietEnv c) fuel' (tinit q false hw dv)).hw.log =
          hw.log ++ enableSeq (hw.regs .GPFSEL0) ++
            ds.map (fun d => Store.reg .GPCLK0_DIV (divWord d)) ++ [Store.halt] ++
            disableSeq ((hw.regs .GPFSEL0 &&& 0xFFFF8FFF) ||| 0x4000) ∧
        divWritten (transmit (quietEnv c) fuel' (tinit q false hw dv)).hw.log =
          divWritten hw.log ++ ds.map divWord := by
  cases ds with
  | nil => exact absurd hn (by simp)
  | cons d rest =>
    have hne : q.qcount ≠ 0 := by
      intro h0
      rw [(contents_nil_iff q).mpr h0] at hq
      exact List.noConfusion hq
    have hpull := contents_qpull q dv hinv hne
    rw [hq] at hpull
    have hd : (qpull q dv).2.1 = d := (List.cons.inj hpull).1.symm
    have hrest : contents (qpull q dv).2.2 = rest := (List.cons.inj hpull).2.symm
    obtain ⟨fuel, i1, i2, i3, i4⟩ := stream_drains c rest
      { pc := .loopTop, q := (qpull q dv).2.2, halt := false, hw := enable_GPCLK0 true hw,
        divisor := (qpull q dv).2.1, next := c 0 % 2 ^ 64, t := 3, k := 1, via := none,
        lastclk := c 0 % 2 ^ 64 }
      0 rfl rfl (QInv_qpull q dv hinv) hrest
      (by
        show c 0 % 2 ^ 64 = deadline (c 0) 0
        unfold deadline
        rw [Nat.mul_zero, Nat.add_zero])
      (by
        intro i hi k0
        rw [Nat.zero_add]
        exact hclk i (by simp only [List.length_cons]; omega) k0)
    rw [← transmit_start c q hw dv hne, ← transmit_add] at i1 i2 i3 i4
    refine ⟨3 + fuel, fun fuel' hf => ?_⟩
    have hstable : transmit (quietEnv c) fuel' (tinit q false hw dv) =
        transmit (quietEnv c) (3 + fuel) (tinit q false hw dv) := by
      rw [show fuel' = (3 + fuel) + (fuel' - (3 + fuel)) by omega, transmit_add]
      exact transmit_done _ _ _ i1
    rw [hstable]
    have hlog : (transmit (quietEnv c) (3 + fuel) (tinit q false hw dv)).hw.log =
        hw.log ++ enableSeq (hw.regs .GPFSEL0) ++
          (d :: rest).map (fun d => Store.reg .GPCLK0_DIV (divWord d)) ++ [Store.halt] ++
          disableSeq ((hw.regs .GPFSEL0 &&& 0xFFFF8FFF) ||| 0x4000) := by
      rw [i4, transmit_start c q hw dv hne]
      simp [enable_true_eq, hd, divStores]
    refine ⟨i1, i2, i3, hlog, ?_⟩
    rw [hlog]
    simp [divWritten_append, divWritten_map, enableSeq, disableSeq, divWritten]

/-- C8 for the queue holding 11, 22, 33 and a counter that advances 7 per load from 1000. -/
theorem transmit_drains_queue_witness :
    ∃ fuel, ∀ fuel', fuel ≤ fuel' →
      (transmit (quietEnv fun k => (1000 + 7 * k) % 2 ^ 64) fuel'
          (tinit (qexec qinit [QOp.push 11, QOp.push 22, QOp.push 33]).1 false
            { regs := fun _ => 0x12345678, log := [] } 0)).pc = .done ∧
        (transmit (quietEnv fun k => (1000 + 7 * k) % 2 ^ 64) fuel'
          (tinit (qexec qinit [QOp.push 11, QOp.push 22, QOp.push 33]).1 false
            { regs := fun _ => 0x12345678, log := [] } 0)).halt = true ∧
        (transmit (quietEnv fun k => (1000 + 7 * k) % 2 ^ 64) fuel'
          (tinit (qexec qinit [QOp.push 11, QOp.push 22, QOp.push 33]).1 false
            { regs := fun _ => 0x12345678, log := [] } 0)).via = some .underflow ∧
        (transmit (quietEnv fun k => (1000 + 7 * k) % 2 ^ 64) fuel'
          (tinit (qexec qinit [QOp.push 11, QOp.push 22, QOp.push 33]).1 false
            { regs := fun _ => 0x12345678, log := [] } 0)).hw.log =
          [] ++ enableSeq 0x12345678 ++
            [11, 22, 33].map (fun d => Store.reg .GPCLK0_DIV (divWord d)) ++ [Store.halt] ++
            disableSeq ((0x12345678 &&& 0xFFFF8FFF) ||| 0x4000) ∧
        divWritten (transmit (quietEnv fun k => (1000 + 7 * k) % 2 ^ 64) fuel'
          (tinit (qexec qinit [QOp.push 11, QOp.push 22, QOp.push 33]).1 false
            { regs := fun _ => 0x12345678, log := [] } 0)).hw.log =
          divWritten [] ++ [11, 22, 33].map divWord :=
  transmit_drains_queue (fun k => (1000 + 7 * k) % 2 ^ 64)
    (qexec qinit [QOp.push 11, QOp.push 22, QOp.push 33]).1
    { regs := fun _ => 0x12345678, log := [] } 0 [11, 22, 33] (by decide) (by decide) (by decide)
    (by
      intro j hj k0
      refine ⟨2 ^ 64 * k0 + 100, by omega, ?_⟩
      have hc : (1000 + 7 * (2 ^ 64 * k0 + 100)) % 2 ^ 64 = 1700 := by omega
      show spinCond ((1000 + 7 * (2 ^ 64 * k0 + 100)) % 2 ^ 64)
        (deadline ((1000 + 7 * 0) % 2 ^ 64) j) = false
      rw [hc]
      have hj3 : j < 3 := hj
      interval_cases j <;> decide)

/-- C9 fails as stated: with the queue empty, when another context sets `halt` after the
first failed `qpull`, `transmit` returns from its first loop after two steps without a single
store, so without the disable sequence. -/
theorem transmit_no_disable_counterexample :
    (transmit { sysclk := fun _ => 0, acts := fun t => if t = 1 then [EnvAct.sethalt] else [] } 2
        (tinit qinit false { regs := fun _ => 0, log := [] } 0)).pc = PC.done ∧
      (transmit { sysclk := fun _ => 0, acts := fun t => if t = 1 then [EnvAct.sethalt] else [] } 2
        (tinit qinit false { regs := fun _ => 0, log := [] } 0)).via = some Exit.waitHalt ∧
      (transmit { sysclk := fun _ => 0, acts := fun t => if t = 1 then [EnvAct.sethalt] else [] } 2
        (tinit qinit false { regs := fun _ => 0, log := [] } 0)).hw.log = [] ∧
      ¬ ∃ pre g,
        (transmit
          { sysclk := fun _ => 0, acts := fun t => if t = 1 then [EnvAct.sethalt] else [] } 2
          (tinit qinit false { regs := fun _ => 0, log := [] } 0)).hw.log =
            pre ++ disableSeq g := by
  refine ⟨by decide, by decide, by decide, ?_⟩
  rintro ⟨pre, g, h⟩
  have hlen := congrArg List.length h
  have h0 : (transmit
      { sysclk := fun _ => 0, acts := fun t => if t = 1 then [EnvAct.sethalt] else [] } 2
      (tinit qinit false { regs := fun _ => 0, log := [] } 0)).hw.log = [] := by decide
  rw [h0] at hlen
  simp [disableSeq] at hlen

/-- C9 as amended: whatever the other contexts do and whatever the counter reads, when
`transmit` has returned `halt` is true, and either it returned from the first loop (halt
seen while waiting for the first sample) having stored nothing, or it left the streaming
loop (halt seen at the top of the loop, halt seen in the spin-wait, or queue underflow) and
its last stores are `halt=true` followed by the disable sequence. -/
theorem transmit_stop_paths (e : Env) (q : QState) (halt : Bool) (hw : Hw) (dv fuel : Nat)
    (hdone : (transmit e fuel (tinit q halt hw dv)).pc = .done) :
    (transmit e fuel (tinit q halt hw dv)).halt = true ∧
      (((transmit e fuel (tinit q halt hw dv)).via = some .waitHalt ∧
          (transmit e fuel (tinit q halt hw dv)).hw.log = hw.log) ∨
        (((transmit e fuel (tinit q halt hw dv)).via = some .topHalt ∨
            (transmit e fuel (tinit q halt hw dv)).via = some .spinHalt ∨
            (transmit e fuel (tinit q halt hw dv)).via = some .underflow) ∧
          ∃ pre, (transmit e fuel (tinit q halt hw dv)).hw.log =
            pre ++ [Store.halt] ++
              [Store.reg .GPCLK0_MODE 0x5A000000,
               Store.reg .GPFSEL0 (((hw.regs .GPFSEL0 &&& 0xFFFF8FFF) ||| 0x4000) &&& 0xFFFF8FFF)])) :=
  (TInv_transmit e hw.log (hw.regs .GPFSEL0) fuel _ (TInv_tinit q halt hw dv)).2.2.2.2 hdone


/-- C9 as amended, in a run that another context halts during the spin-wait: two divisors
queued, a counter stuck at 5, `halt` set before the transmitter's step 12. -/
theorem transmit_stop_paths_witness :
    (transmit { sysclk := fun _ => 5, acts := fun t => if t = 12 then [EnvAct.sethalt] else [] } 16
        (tinit (qexec qinit [QOp.push 11, QOp.push 22]).1 false
          { regs := fun _ => 0x12345678, log := [] } 0)).halt = true ∧
      (((transmit { sysclk := fun _ => 5, acts := fun t => if t = 12 then [EnvAct.sethalt] else [] }
            16 (tinit (qexec qinit [QOp.push 11, QOp.push 22]).1 false
              { regs := fun _ => 0x12345678, log := [] } 0)).via = some .waitHalt ∧
          (transmit { sysclk := fun _ => 5, acts := fun t => if t = 12 then [EnvAct.sethalt] else [] }
            16 (tinit (qexec qinit [QOp.push 11, QOp.push 22]).1 false
              { regs := fun _ => 0x12345678, log := [] } 0)).hw.log = []) ∨
        (((transmit { sysclk := fun _ => 5, acts := fun t => if t = 12 then [EnvAct.sethalt] else [] }
              16 (tinit (qexec qinit [QOp.push 11, QOp.push 22]).1 false
                { regs := fun _ => 0x12345678, log := [] } 0)).via = some .topHalt ∨
            (transmit { sysclk := fun _ => 5, acts := fun t => if t = 12 then [EnvAct.sethalt] else [] }
              16 (tinit (qexec qinit [QOp.push 11, QOp.push 22]).1 false
                { regs := fun _ => 0x12345678, log := [] } 0)).via = some .spinHalt ∨
            (transmit { sysclk := fun _ => 5, acts := fun t => if t = 12 then [EnvAct.sethalt] else [] }
              16 (tinit (qexec qinit [QOp.push 11, QOp.push 22]).1 false
                { regs := fun _ => 0x12345678, log := [] } 0)).via = some .underflow) ∧
          ∃ pre,
            (transmit { sysclk := fun _ => 5, acts := fun t => if t = 12 then [EnvAct.sethalt] else [] }
              16 (tinit (qexec qinit [QOp.push 11, QOp.push 22]).1 false
                { regs := fun _ => 0x12345678, log := [] } 0)).hw.log =
              pre ++ [Store.halt] ++
                [Store.reg .GPCLK0_MODE 0x5A000000,
                 Store.reg .GPFSEL0 (((0x12345678 &&& 0xFFFF8FFF) ||| 0x4000) &&& 0xFFFF8FFF)])) :=
  transmit_stop_paths
    { sysclk := fun _ => 5, acts := fun t => if t = 12 then [EnvAct.sethalt] else [] }
    (qexec qinit [QOp.push 11, QOp.push 22]).1 false { regs := fun _ => 0x12345678, log := [] }
    0 16 (by decide)

/-! ## The divisor computation: claims -/

/-- C10: the divisor is a function of `frequency`, `deviation` and `sample` alone, computed
as `(uint32_t)((500.0 / (frequency + (sample / 32768.0) * deviation)) * 4096)`, and the cast
truncates toward zero.  With `frequency` the `float` of 100.5 and `deviation` the `float` of
0.075, sample 0 gives 20378 and sample -32768 gives 20393; sample 5000 gives 20375 although
the `double` that is cast lies above 20375.5; and whenever a divisor `d` results, the
`double` `x` that was cast satisfies `d <= x < d + 1` (or `-1 < x < 0` and `d = 0`). -/
theorem divisor_truncates :
    floatOfDecimal 1005 10 = some ⟨13172736, -17⟩ ∧
      floatOfDecimal 75 1000 = some ⟨10066330, -27⟩ ∧
      divisor ⟨13172736, -17⟩ ⟨10066330, -27⟩ 0 = some 20378 ∧
      divisor ⟨13172736, -17⟩ ⟨10066330, -27⟩ (-32768) = some 20393 ∧
      (divisorReal ⟨13172736, -17⟩ ⟨10066330, -27⟩ 5000 = some ⟨5600854295826962, -38⟩ ∧
        (2 * 20375 + 1) * 2 ^ 38 < 2 * 5600854295826962 ∧
        divisor ⟨13172736, -17⟩ ⟨10066330, -27⟩ 5000 = some 20375) ∧
      ∀ (frequency deviation : Fl) (sample : Int) (d : Nat),
        divisor frequency deviation sample = some d →
          ∃ x : Fl, divisorReal frequency deviation sample = some x ∧
            (0 ≤ x.e → (d : Int) = x.m * 2 ^ x.e.toNat) ∧
            (x.e < 0 →
              (0 ≤ x.m →
                (d : Int) * 2 ^ (-x.e).toNat ≤ x.m ∧ x.m < ((d : Int) + 1) * 2 ^ (-x.e).toNat) ∧
              (x.m < 0 → d = 0 ∧ -(2 ^ (-x.e).toNat : Int) < x.m)) := by
  refine ⟨by decide, by decide, by decide, by decide, ⟨by decide, by decide, by decide⟩, ?_⟩
  intro frequency deviation sample d h
  unfold divisor at h
  cases hx : divisorReal frequency deviation sample with
  | none =>
    rw [hx] at h
    exact Option.noConfusion h
  | some x =>
    rw [hx] at h
    exact ⟨x, rfl, toU32_trunc x d h⟩

/-- C10 at sample 32767: the general truncation statement applied to the largest sample. -/
theorem divisor_truncates_witness :
    ∃ x : Fl, divisorReal ⟨13172736, -17⟩ ⟨10066330, -27⟩ 32767 = some x ∧
      (0 ≤ x.e → ((20362 : Nat) : Int) = x.m * 2 ^ x.e.toNat) ∧
      (x.e < 0 →
        (0 ≤ x.m →
          ((20362 : Nat) : Int) * 2 ^ (-x.e).toNat ≤ x.m ∧
            x.m < (((20362 : Nat) : Int) + 1) * 2 ^ (-x.e).toNat) ∧
        (x.m < 0 → (20362 : Nat) = 0 ∧ -(2 ^ (-x.e).toNat : Int) < x.m)) :=
  divisor_truncates.2.2.2.2.2 ⟨13172736, -17⟩ ⟨10066330, -27⟩ 32767 20362 (by decide)

/-! ## More register lemmas and claims -/

theorem fsel_clock_idem (g : Nat) :
    ((((g &&& 0xFFFF8FFF) ||| 0x4000) &&& 0xFFFF8FFF) ||| 0x4000) =
      ((g &&& 0xFFFF8FFF) ||| 0x4000) := by
  apply Nat.eq_of_testBit_eq
  intro i
  simp only [Nat.testBit_or, Nat.testBit_and]
  cases g.testBit i <;> cases Nat.testBit 0xFFFF8FFF i <;> cases Nat.testBit 0x4000 i <;> rfl

theorem fsel_input_idem (g : Nat) :
    ((g &&& 0xFFFF8FFF) &&& 0xFFFF8FFF) = (g &&& 0xFFFF8FFF) := by
  rw [Nat.and_assoc, Nat.and_self]

/-- C12: for every register state, `enable_GPCLK0(true)` run twice leaves `GPFSEL0` and
`GPCLK0_MODE` holding the same words as run once, and so does `enable_GPCLK0(false)`. -/
theorem enable_GPCLK0_idempotent (h : Hw) :
    ((enable_GPCLK0 true (enable_GPCLK0 true h)).regs .GPFSEL0 =
        (enable_GPCLK0 true h).regs .GPFSEL0 ∧
      (enable_GPCLK0 true (enable_GPCLK0 true h)).regs .GPCLK0_MODE =
        (enable_GPCLK0 true h).regs .GPCLK0_MODE) ∧
    ((enable_GPCLK0 false (enable_GPCLK0 false h)).regs .GPFSEL0 =
        (enable_GPCLK0 false h).regs .GPFSEL0 ∧
      (enable_GPCLK0 false (enable_GPCLK0 false h)).regs .GPCLK0_MODE =
        (enable_GPCLK0 false h).regs .GPCLK0_MODE) := by
  refine ⟨⟨?_, ?_⟩, ?_, ?_⟩
  · rw [enable_true_eq (enable_GPCLK0 true h), enable_true_eq h]
    exact fsel_clock_idem (h.regs .GPFSEL0)
  · rw [enable_true_eq (enable_GPCLK0 true h), enable_true_eq h]
    rfl
  · rw [enable_false_eq (enable_GPCLK0 false h), enable_false_eq h]
    exact fsel_input_idem (h.regs .GPFSEL0)
  · rw [enable_false_eq (enable_GPCLK0 false h), enable_false_eq h]
    rfl

/-- C13: the deadline test tolerates wrap-around of the counter.  For a counter value `c`
and a deadline `next`, both unwrapped, less than `2^63` apart, the spin condition
`(int64_t)(SYSCLK-next) < 0` computed on their 64-bit values holds iff `c` is strictly before
`next`. -/
theorem spinCond_wraparound (c next : Nat) (h1 : c < next + 2 ^ 63) (h2 : next < c + 2 ^ 63) :
    spinCond (c % 2 ^ 64) (next % 2 ^ 64) = true ↔ c < next := by
  unfold spinCond toInt64 sub64
  rw [decide_eq_true_iff]
  split <;> omega

/-- C13 where `next` has wrapped past `2^64` and `c` has not: `c = 2^64 - 3`,
`next = 2^64 + 5`, held as `5`. -/
theorem spinCond_wraparound_witness :
    spinCond ((2 ^ 64 - 3) % 2 ^ 64) ((2 ^ 64 + 5) % 2 ^ 64) = true ↔ 2 ^ 64 - 3 < 2 ^ 64 + 5 :=
  spinCond_wraparound (2 ^ 64 - 3) (2 ^ 64 + 5) (by decide) (by decide)

theorem pin_field_of_bits (v g p : Nat) (hp : p ≠ 4)
    (hb : ∀ i : Nat, ¬ (12 ≤ i ∧ i ≤ 14) → v.testBit i = g.testBit i) :
    (v >>> (3 * p)) % 8 = (g >>> (3 * p)) % 8 := by
  apply Nat.eq_of_testBit_eq
  intro j
  have h8 : (8 : Nat) = 2 ^ 3 := rfl
  rw [h8, Nat.testBit_mod_two_pow, Nat.testBit_mod_two_pow, Nat.testBit_shiftRight,
    Nat.testBit_shiftRight]
  by_cases hj : j < 3
  · rw [hb (3 * p + j) (by omega)]
  · simp [hj]

/-- C20: both `enable_GPCLK0(true)` and `enable_GPCLK0(false)` store one word `v` to `GPFSEL0`
(every store to `GPFSEL0` in the log is an old one or `v`), and for every prior 32-bit value
every bit of `v` outside bits 12..14 is the bit of the prior value: the 3-bit function field
of every pin other than GPIO4 is unchanged. -/
theorem enable_GPCLK0_other_pins (enable : Bool) (h : Hw) (hg : h.regs .GPFSEL0 < 2 ^ 32) :
    ∃ v : Nat,
      (enable_GPCLK0 enable h).regs .GPFSEL0 = v ∧
        (∀ w : Nat, Store.reg .GPFSEL0 w ∈ (enable_GPCLK0 enable h).log →
          Store.reg .GPFSEL0 w ∈ h.log ∨ w = v) ∧
        (∀ i : Nat, ¬ (12 ≤ i ∧ i ≤ 14) → v.testBit i = (h.regs .GPFSEL0).testBit i) ∧
        (∀ p : Nat, p ≠ 4 → (v >>> (3 * p)) % 8 = (h.regs .GPFSEL0 >>> (3 * p)) % 8) := by
  cases enable with
  | true =>
    have hb : ∀ i : Nat, ¬ (12 ≤ i ∧ i ≤ 14) →
        ((h.regs .GPFSEL0 &&& 0xFFFF8FFF) ||| 0x4000).testBit i = (h.regs .GPFSEL0).testBit i := by
      intro i hi
      rw [fsel_clock_bits _ i hg, if_neg hi]
    refine ⟨(h.regs .GPFSEL0 &&& 0xFFFF8FFF) ||| 0x4000, ?_, ?_, hb,
      fun p hp => pin_field_of_bits _ _ p hp hb⟩
    · rw [enable_true_eq]
      rfl
    · intro w hw
      rw [enable_true_eq] at hw
      simp only [enableSeq, List.mem_append, List.mem_cons, Store.reg.injEq, reduceCtorEq,
        false_and, true_and, List.mem_nil_iff, or_false, List.mem_singleton] at hw
      exact hw
  | false =>
    have hb : ∀ i : Nat, ¬ (12 ≤ i ∧ i ≤ 14) →
        (h.regs .GPFSEL0 &&& 0xFFFF8FFF).testBit i = (h.regs .GPFSEL0).testBit i := by
      intro i hi
      rw [fsel_input_bits _ i hg, if_neg hi]
    refine ⟨h.regs .GPFSEL0 &&& 0xFFFF8FFF, ?_, ?_, hb,
      fun p hp => pin_field_of_bits _ _ p hp hb⟩
    · rw [enable_false_eq]
      rfl
    · intro w hw
      rw [enable_false_eq] at hw
      simp only [disableSeq, List.mem_append, List.mem_cons, Store.reg.injEq, reduceCtorEq,
        false_and, true_and, List.mem_nil_iff, or_false, List.mem_singleton, false_or] at hw
      exact hw

/-- C20 for `enable_GPCLK0(true)` with `GPFSEL0 = 0x12345678`. -/
theorem enable_GPCLK0_other_pins_witness :
    ∃ v : Nat,
      (enable_GPCLK0 true { regs := fun _ => 0x12345678, log := [] }).regs .GPFSEL0 = v ∧
        (∀ w : Nat,
          Store.reg .GPFSEL0 w ∈
              (enable_GPCLK0 true { regs := fun _ => 0x12345678, log := [] }).log →
            Store.reg .GPFSEL0 w ∈ ([] : List Store) ∨ w = v) ∧
        (∀ i : Nat, ¬ (12 ≤ i ∧ i ≤ 14) → v.testBit i = Nat.testBit 0x12345678 i) ∧
        (∀ p : Nat, p ≠ 4 → (v >>> (3 * p)) % 8 = (0x12345678 >>> (3 * p)) % 8) :=
  enable_GPCLK0_other_pins true { regs := fun _ => 0x12345678, log := [] } (by decide)

/-! ## More transmitter lemmas and claims -/

theorem others_locals (e : Env) (s : TState) :
    (others e s).pc = s.pc ∧ (others e s).hw = s.hw ∧ (others e s).next = s.next ∧
      (others e s).k = s.k ∧ (others e s).lastclk = s.lastclk ∧
      (others e s).divisor = s.divisor ∧ (others e s).via = s.via := by
  have key : ∀ (l : List EnvAct) (x : TState),
      (l.foldl envAct x).pc = x.pc ∧ (l.foldl envAct x).hw = x.hw ∧
        (l.foldl envAct x).next = x.next ∧ (l.foldl envAct x).k = x.k ∧
        (l.foldl envAct x).lastclk = x.lastclk ∧ (l.foldl envAct x).divisor = x.divisor ∧
        (l.foldl envAct x).via = x.via := by
    intro l
    induction l with
    | nil =>
      intro x
      exact ⟨rfl, rfl, rfl, rfl, rfl, rfl, rfl⟩
    | cons a l ih =>
      intro x
      obtain ⟨h1, h2, h3, h4, h5, h6, h7⟩ := ih (envAct x a)
      have ha : (envAct x a).pc = x.pc ∧ (envAct x a).hw = x.hw ∧
          (envAct x a).next = x.next ∧ (envAct x a).k = x.k ∧
          (envAct x a).lastclk = x.lastclk ∧ (envAct x a).divisor = x.divisor ∧
          (envAct x a).via = x.via := by
        cases a <;> exact ⟨rfl, rfl, rfl, rfl, rfl, rfl, rfl⟩
      exact ⟨h1.trans ha.1, h2.trans ha.2.1, h3.trans ha.2.2.1, h4.trans ha.2.2.2.1,
        h5.trans ha.2.2.2.2.1, h6.trans ha.2.2.2.2.2.1, h7.trans ha.2.2.2.2.2.2⟩
  exact key (e.acts s.t) s

theorem SchedInv_others (e : Env) (l0 : List Store) (start : Nat) (s : TState)
    (h : SchedInv l0 start s) : SchedInv l0 start (others e s) := by
  obtain ⟨h1, h2, h3, h4, h5, _, _⟩ := others_locals e s
  unfold SchedInv at *
  rw [h1, h2, h3, h4, h5]
  exact h

theorem spinCond_mod (c next : Nat) : spinCond (c % 2 ^ 64) next = spinCond c next := by
  unfold spinCond sub64
  rw [Nat.mod_mod]

theorem nDiv_enable (h : Hw) : nDiv (enable_GPCLK0 true h).log = nDiv h.log := by
  rw [enable_true_eq]
  simp [nDiv, divWritten_append, enableSeq, divWritten]

theorem nDiv_set (n : Nat) (h : Hw) : nDiv (set_GPCLK0 n h).log = nDiv h.log + 1 := by
  rw [set_GPCLK0_eq]
  simp [nDiv, divWritten_append, divWritten]

theorem SchedInv_tbody (e : Env) (l0 : List Store) (s : TState)
    (h : SchedInv l0 (e.sysclk 0) s) : SchedInv l0 (e.sysclk 0) (tbody e s) := by
  obtain ⟨a, b, c, d⟩ := h
  unfold tbody
  cases hpc : s.pc
  case wait =>
    simp only [hpc, true_or, forall_const] at a
    simp only
    split <;> simp [SchedInv, a]
  case waitHalt =>
    simp only [hpc, true_or, or_true, forall_const] at a
    simp only
    split <;> simp [SchedInv, a]
  case enable =>
    simp only [hpc, true_or, or_true, forall_const] at a
    simp [SchedInv, nDiv_enable, a]
  case readClk =>
    simp only [hpc, or_true, forall_const] at a
    simp only [SchedInv, reduceCtorEq, false_or, or_false, or_self, IsEmpty.forall_iff,
      true_and, and_true, true_or, forall_const]
    refine ⟨0, by rw [a.2]; rfl, ?_⟩
    rw [a.1]
    unfold deadline
    rw [Nat.mul_zero, Nat.add_zero]
  case loopTop =>
    simp only [hpc, true_or, forall_const] at b
    simp only
    split <;> simp [SchedInv, b]
  case spin =>
    simp only [hpc, true_or, or_true, forall_const] at b
    obtain ⟨j, hj, hn⟩ := b
    simp only
    split
    · simp only [SchedInv, reduceCtorEq, false_or, or_false, or_self, IsEmpty.forall_iff,
        true_and, and_true, or_true, forall_const]
      exact ⟨j, hj, hn⟩
    · rename_i hc
      simp only [SchedInv, reduceCtorEq, false_or, or_false, or_self, IsEmpty.forall_iff,
        true_and, and_true, forall_const]
      refine ⟨j, hj, hn, ?_⟩
      rw [spinCond_mod]
      simpa using hc
  case spinHalt =>
    simp only [hpc, or_true, forall_const] at b
    simp only
    split <;> simp [SchedInv, b]
  case write =>
    simp only [hpc, forall_const] at c
    obtain ⟨j, hj, hn, _⟩ := c
    simp only [SchedInv, reduceCtorEq, false_or, or_false, or_self, IsEmpty.forall_iff,
      true_and, and_true, forall_const, nDiv_set]
    exact ⟨j, by omega, hn⟩
  case pull =>
    simp only [hpc, forall_const] at d
    obtain ⟨j, hj, hn⟩ := d
    simp only
    split
    · simp only [SchedInv, reduceCtorEq, false_or, or_false, or_self, IsEmpty.forall_iff,
        true_and, and_true, true_or, forall_const]
      exact ⟨j + 1, hj, by rw [hn]; exact deadline_succ _ j⟩
    · simp [SchedInv]
  case out => simp [SchedInv]
  case disable => simp [SchedInv]
  case done =>
    simp only [SchedInv, hpc, reduceCtorEq, false_or, or_false, or_self, IsEmpty.forall_iff,
      true_and, and_true]

theorem SchedInv_tstep (e : Env) (l0 : List Store) (s : TState)
    (h : SchedInv l0 (e.sysclk 0) s) : SchedInv l0 (e.sysclk 0) (tstep e s) := by
  by_cases hd : s.pc = .done
  · rw [tstep_done e s hd]
    exact h
  · rw [tstep_eq e s hd]
    exact SchedInv_tbody e l0 _ (SchedInv_others e l0 _ s h)

theorem SchedInv_transmit (e : Env) (l0 : List Store) (fuel : Nat) :
    ∀ s : TState, SchedInv l0 (e.sysclk 0) s → SchedInv l0 (e.sysclk 0) (transmit e fuel s) := by
  induction fuel with
  | zero =>
    intro s h
    exact h
  | succ n ih =>
    intro s h
    exact ih (tstep e s) (SchedInv_tstep e l0 s h)

theorem SchedInv_tinit (start : Nat) (q : QState) (halt : Bool) (hw : Hw) (dv : Nat) :
    SchedInv hw.log start (tinit q halt hw dv) := by
  simp [SchedInv, tinit]

theorem nDiv_tbody (e : Env) (s : TState) (h : nDiv (tbody e s).hw.log ≠ nDiv s.hw.log) :
    s.pc = .write := by
  by_contra hne
  apply h
  unfold tbody
  cases hpc : s.pc
  case write => exact absurd hpc hne
  case enable => exact nDiv_enable s.hw
  case out => simp [nDiv, divWritten_append, divWritten]
  case disable =>
    simp only [enable_false_eq]
    simp [nDiv, divWritten_append, divWritten, disableSeq]
  all_goals first | rfl | (simp only; split <;> rfl)

theorem nDiv_tstep (e : Env) (s : TState) (h : nDiv (tstep e s).hw.log ≠ nDiv s.hw.log) :
    s.pc = .write := by
  by_cases hd : s.pc = .done
  · rw [tstep_done e s hd] at h
    exact absurd rfl h
  · rw [tstep_eq e s hd] at h
    obtain ⟨h1, h2, _⟩ := others_locals e s
    rw [← h1]
    apply nDiv_tbody e
    rw [h2]
    exact h

theorem toInt64_of_spinCond (c next : Nat) (h : spinCond c next = false) :
    0 ≤ toInt64 (sub64 c next) := by
  unfold spinCond at h
  have := of_decide_eq_false h
  omega

/-- C18: the sample period is exactly 50 microseconds, `1000000 / 20000` with no remainder,
and the deadlines are `start + 50 * k` modulo `2^64` for `start` the first `SYSCLK` value
loaded.  In every run of `transmit`, whatever the other contexts do: a step that adds a
store to `GPCLK0_DIV` is a step from `set_GPCLK0(divisor)`, and when the run stands there
with `k` divisor stores made, the last `SYSCLK` value `c` loaded has
`(int64_t)(c - (start + 50 * k)) >= 0`. -/
theorem transmit_deadline_schedule (e : Env) (q : QState) (halt : Bool) (hw : Hw)
    (dv fuel : Nat) :
    USECS_PER_SAMPLE = 50 ∧ 1000000 % SAMPLES_PER_SECOND = 0 ∧
      (nDiv (tstep e (transmit e fuel (tinit q halt hw dv))).hw.log ≠
          nDiv (transmit e fuel (tinit q halt hw dv)).hw.log →
        (transmit e fuel (tinit q halt hw dv)).pc = .write) ∧
      ((transmit e fuel (tinit q halt hw dv)).pc = .write →
        ∀ k : Nat, nDiv (transmit e fuel (tinit q halt hw dv)).hw.log = nDiv hw.log + k →
          0 ≤ toInt64 (sub64 (transmit e fuel (tinit q halt hw dv)).lastclk
            ((e.sysclk 0 + 50 * k) % 2 ^ 64))) := by
  refine ⟨by decide, by decide, nDiv_tstep e _, fun hpc k hk => ?_⟩
  obtain ⟨j, hj, hn, hc⟩ :=
    (SchedInv_transmit e hw.log fuel _ (SchedInv_tinit (e.sysclk 0) q halt hw dv)).2.2.1 hpc
  have hjk : j = k := by omega
  rw [hjk] at hn
  have hd : deadline (e.sysclk 0) k = (e.sysclk 0 + 50 * k) % 2 ^ 64 := rfl
  rw [← hd, ← hn]
  exact toInt64_of_spinCond _ _ hc

set_option maxRecDepth 16000 in
/-- C18 in the run on the queue 11, 22, 33 with a counter that advances 7 per load from
1000: after 21 steps `transmit` stands at `set_GPCLK0(divisor)` with one divisor stored, and
the last counter value loaded is not before the deadline `1000 + 50 * 1`. -/
theorem transmit_deadline_schedule_witness :
    0 ≤ toInt64 (sub64
      (transmit (quietEnv fun k => (1000 + 7 * k) % 2 ^ 64) 21
        (tinit (qexec qinit [QOp.push 11, QOp.push 22, QOp.push 33]).1 false
          { regs := fun _ => 0, log := [] } 0)).lastclk
      (((quietEnv fun k => (1000 + 7 * k) % 2 ^ 64).sysclk 0 + 50 * 1) % 2 ^ 64)) :=
  (transmit_deadline_schedule (quietEnv fun k => (1000 + 7 * k) % 2 ^ 64)
    (qexec qinit [QOp.push 11, QOp.push 22, QOp.push 33]).1 false
    { regs := fun _ => 0, log := [] } 0 21).2.2.2 (by decide) 1 (by decide)

theorem ShapeInv_others (e : Env) (l0 : List Store) (g0 : Nat) (s : TState)
    (h : ShapeInv l0 g0 s) : ShapeInv l0 g0 (others e s) := by
  obtain ⟨h1, h2, h3, _⟩ := others_frame e s
  unfold ShapeInv at *
  rw [h1, h2, h3]
  exact h

theorem ShapeInv_tbody (e : Env) (l0 : List Store) (g0 : Nat) (s : TState)
    (h : ShapeInv l0 g0 s) : ShapeInv l0 g0 (tbody e s) := by
  obtain ⟨a, b, c, d⟩ := h
  unfold tbody
  cases hpc : s.pc
  case wait =>
    simp only [hpc, true_or, forall_const] at a
    simp only
    split <;> simp [ShapeInv, a]
  case waitHalt =>
    simp only [hpc, true_or, or_true, forall_const] at a
    simp only
    split <;> simp [ShapeInv, a]
  case enable =>
    simp only [hpc, or_true, forall_const] at a
    simp only [ShapeInv, enable_true_eq, reduceCtorEq, false_or, or_false, or_self,
      IsEmpty.forall_iff, true_and, and_true, true_or, forall_const, reduceIte, a, ne_eq,
      not_false_eq_true]
    exact ⟨[], by simp [divStores]⟩
  case readClk =>
    simp only [hpc, true_or, forall_const] at b
    simp only [ShapeInv, reduceCtorEq, false_or, or_false, or_self, IsEmpty.forall_iff,
      true_and, and_true, true_or, or_true, forall_const]
    exact b
  case loopTop =>
    simp only [hpc, true_or, or_true, forall_const] at b
    simp only
    split
    · simp only [ShapeInv, reduceCtorEq, false_or, or_false, or_self, IsEmpty.forall_iff,
        true_and, and_true, true_or, or_true, forall_const]
      exact ⟨b.1, by simp, b.2.2⟩
    · simp only [ShapeInv, reduceCtorEq, false_or, or_false, or_self, IsEmpty.forall_iff,
        true_and, and_true, true_or, or_true, forall_const]
      exact b
  case spin =>
    simp only [hpc, true_or, or_true, forall_const] at b
    simp only
    split <;>
    · simp only [ShapeInv, reduceCtorEq, false_or, or_false, or_self, IsEmpty.forall_iff,
        true_and, and_true, true_or, or_true, forall_const]
      exact b
  case spinHalt =>
    simp only [hpc, true_or, or_true, forall_const] at b
    simp only
    split
    · simp only [ShapeInv, reduceCtorEq, false_or, or_false, or_self, IsEmpty.forall_iff,
        true_and, and_true, true_or, or_true, forall_const]
      exact ⟨b.1, by simp, b.2.2⟩
    · simp only [ShapeInv, reduceCtorEq, false_or, or_false, or_self, IsEmpty.forall_iff,
        true_and, and_true, true_or, or_true, forall_const]
      exact b
  case write =>
    simp only [hpc, true_or, or_true, forall_const] at b
    obtain ⟨hg, hv, ds, hl⟩ := b
    simp only [ShapeInv, set_GPCLK0_eq, reduceCtorEq, false_or, or_false, or_self,
      IsEmpty.forall_iff, true_and, and_true, true_or, or_true, forall_const, reduceIte]
    refine ⟨hg, hv, ds ++ [s.divisor], ?_⟩
    rw [hl]
    simp [divStores]
  case pull =>
    simp only [hpc, true_or, or_true, forall_const] at b
    simp only
    split
    · simp only [ShapeInv, reduceCtorEq, false_or, or_false, or_self, IsEmpty.forall_iff,
        true_and, and_true, true_or, or_true, forall_const]
      exact b
    · simp only [ShapeInv, reduceCtorEq, false_or, or_false, or_self, IsEmpty.forall_iff,
        true_and, and_true, true_or, or_true, forall_const]
      exact ⟨b.1, by simp, b.2.2⟩
  case out =>
    simp only [hpc, or_true, forall_const] at b
    obtain ⟨hg, hv, ds, hl⟩ := b
    simp only [ShapeInv, reduceCtorEq, false_or, or_false, or_self, IsEmpty.forall_iff,
      true_and, and_true, forall_const]
    exact ⟨hg, hv, ds, by rw [hl]⟩
  case disable =>
    simp only [hpc, forall_const] at c
    obtain ⟨hg, hv, ds, hl⟩ := c
    simp only [ShapeInv, enable_false_eq, reduceCtorEq, false_or, or_false, or_self,
      IsEmpty.forall_iff, true_and, forall_const]
    exact Or.inr ⟨hv, ds, by rw [hl, hg]⟩
  case done =>
    simp only [hpc, forall_const] at d
    simp only [ShapeInv, hpc, reduceCtorEq, false_or, or_false, or_self, IsEmpty.forall_iff,
      true_and, forall_const]
    exact d

theorem ShapeInv_tstep (e : Env) (l0 : List Store) (g0 : Nat) (s : TState)
    (h : ShapeInv l0 g0 s) : ShapeInv l0 g0 (tstep e s) := by
  by_cases hd : s.pc = .done
  · rw [tstep_done e s hd]
    exact h
  · rw [tstep_eq e s hd]
    exact ShapeInv_tbody e l0 g0 _ (ShapeInv_others e l0 g0 s h)

theorem ShapeInv_transmit (e : Env) (l0 : List Store) (g0 : Nat) (fuel : Nat) :
    ∀ s : TState, ShapeInv l0 g0 s → ShapeInv l0 g0 (transmit e fuel s) := by
  induction fuel with
  | zero =>
    intro s h
    exact h
  | succ n ih =>
    intro s h
    exact ih (tstep e s) (ShapeInv_tstep e l0 g0 s h)

theorem ShapeInv_tinit (q : QState) (halt : Bool) (hw : Hw) (dv : Nat) :
    ShapeInv hw.log (hw.regs .GPFSEL0) (tinit q halt hw dv) := by
  simp [ShapeInv, tinit]

theorem regWrites_append (l m : List Store) :
    regWrites (l ++ m) = regWrites l ++ regWrites m := by
  induction l with
  | nil => rfl
  | cons a l ih =>
    cases a with
    | halt => simpa [regWrites] using ih
    | reg r v => simpa [regWrites] using ih

theorem regWrites_divStores (ds : List Nat) :
    regWrites (divStores ds) = ds.map (fun d => (Reg.GPCLK0_DIV, divWord d)) := by
  induction ds with
  | nil => rfl
  | cons d ds ih => simpa [regWrites, divStores] using ih

theorem regWrites_streaming (l0 : List Store) (g0 : Nat) (ds : List Nat) :
    regWrites (l0 ++ enableSeq g0 ++ divStores ds) =
      regWrites l0 ++
        [(Reg.GPFSEL0, (g0 &&& 0xFFFF8FFF) ||| 0x4000),
         (Reg.GPCLK0_MODE, 0x5A000020), (Reg.GPCLK0_MODE, 0x5A000010),
         (Reg.GPCLK0_MODE, 0x5A000216)] ++
        ds.map (fun d => (Reg.GPCLK0_DIV, divWord d)) := by
  rw [regWrites_append, regWrites_append, regWrites_divStores]
  rfl

theorem regWrites_halted (l0 : List Store) (g0 : Nat) (ds : List Nat) :
    regWrites (l0 ++ enableSeq g0 ++ divStores ds ++ [Store.halt]) =
      regWrites l0 ++
        [(Reg.GPFSEL0, (g0 &&& 0xFFFF8FFF) ||| 0x4000),
         (Reg.GPCLK0_MODE, 0x5A000020), (Reg.GPCLK0_MODE, 0x5A000010),
         (Reg.GPCLK0_MODE, 0x5A000216)] ++
        ds.map (fun d => (Reg.GPCLK0_DIV, divWord d)) := by
  rw [regWrites_append, regWrites_streaming]
  simp [regWrites]

theorem regWrites_finished (l0 : List Store) (g0 : Nat) (ds : List Nat) :
    regWrites (l0 ++ enableSeq g0 ++ divStores ds ++ [Store.halt] ++
        disableSeq ((g0 &&& 0xFFFF8FFF) ||| 0x4000)) =
      regWrites l0 ++
        [(Reg.GPFSEL0, (g0 &&& 0xFFFF8FFF) ||| 0x4000),
         (Reg.GPCLK0_MODE, 0x5A000020), (Reg.GPCLK0_MODE, 0x5A000010),
         (Reg.GPCLK0_MODE, 0x5A000216)] ++
        ds.map (fun d => (Reg.GPCLK0_DIV, divWord d)) ++
        [(Reg.GPCLK0_MODE, 0x5A000000),
         (Reg.GPFSEL0, ((g0 &&& 0xFFFF8FFF) ||| 0x4000) &&& 0xFFFF8FFF)] := by
  rw [regWrites_append, regWrites_halted]
  rfl

/-- C19: in every run of `transmit`, whatever the other contexts do, the register stores made
so far are none, or the four stores of the enable sequence followed by stores to `GPCLK0_DIV`
only, or those followed by the two stores of the disable sequence; and when `transmit` has
returned they are none (the return from the first loop, `halt` seen with the queue empty) or
the full shape: enable sequence, zero or more divisor stores, disable sequence. -/
theorem transmit_write_shape (e : Env) (q : QState) (halt : Bool) (hw : Hw) (dv fuel : Nat) :
    (∃ ds : List Nat,
      regWrites (transmit e fuel (tinit q halt hw dv)).hw.log = regWrites hw.log ∨
      regWrites (transmit e fuel (tinit q halt hw dv)).hw.log =
        regWrites hw.log ++
          [(Reg.GPFSEL0, (hw.regs .GPFSEL0 &&& 0xFFFF8FFF) ||| 0x4000),
           (Reg.GPCLK0_MODE, 0x5A000020), (Reg.GPCLK0_MODE, 0x5A000010),
           (Reg.GPCLK0_MODE, 0x5A000216)] ++
          ds.map (fun d => (Reg.GPCLK0_DIV, divWord d)) ∨
      regWrites (transmit e fuel (tinit q halt hw dv)).hw.log =
        regWrites hw.log ++
          [(Reg.GPFSEL0, (hw.regs .GPFSEL0 &&& 0xFFFF8FFF) ||| 0x4000),
           (Reg.GPCLK0_MODE, 0x5A000020), (Reg.GPCLK0_MODE, 0x5A000010),
           (Reg.GPCLK0_MODE, 0x5A000216)] ++
          ds.map (fun d => (Reg.GPCLK0_DIV, divWord d)) ++
          [(Reg.GPCLK0_MODE, 0x5A000000),
           (Reg.GPFSEL0, ((hw.regs .GPFSEL0 &&& 0xFFFF8FFF) ||| 0x4000) &&& 0xFFFF8FFF)]) ∧
    ((transmit e fuel (tinit q halt hw dv)).pc = .done →
      ((transmit e fuel (tinit q halt hw dv)).via = some .waitHalt ∧
        regWrites (transmit e fuel (tinit q halt hw dv)).hw.log = regWrites hw.log) ∨
      ((transmit e fuel (tinit q halt hw dv)).via ≠ some .waitHalt ∧
        ∃ ds : List Nat,
          regWrites (transmit e fuel (tinit q halt hw dv)).hw.log =
            regWrites hw.log ++
              [(Reg.GPFSEL0, (hw.regs .GPFSEL0 &&& 0xFFFF8FFF) ||| 0x4000),
               (Reg.GPCLK0_MODE, 0x5A000020), (Reg.GPCLK0_MODE, 0x5A000010),
               (Reg.GPCLK0_MODE, 0x5A000216)] ++
              ds.map (fun d => (Reg.GPCLK0_DIV, divWord d)) ++
              [(Reg.GPCLK0_MODE, 0x5A000000),
               (Reg.GPFSEL0,
                 ((hw.regs .GPFSEL0 &&& 0xFFFF8FFF) ||| 0x4000) &&& 0xFFFF8FFF)])) := by
  obtain ⟨a, b, c, d⟩ :=
    ShapeInv_transmit e hw.log (hw.regs .GPFSEL0) fuel _ (ShapeInv_tinit q halt hw dv)
  generalize transmit e fuel (tinit q halt hw dv) = s at a b c d
  constructor
  · cases hpc : s.pc
    case wait => exact ⟨[], Or.inl (by rw [(a (Or.inl hpc)).1])⟩
    case waitHalt => exact ⟨[], Or.inl (by rw [(a (Or.inr (Or.inl hpc))).1])⟩
    case enable => exact ⟨[], Or.inl (by rw [(a (Or.inr (Or.inr hpc))).1])⟩
    case disable =>
      obtain ⟨_, _, ds, hl⟩ := c hpc
      exact ⟨ds, Or.inr (Or.inl (by rw [hl, regWrites_halted]))⟩
    case done =>
      rcases d hpc with ⟨_, hl⟩ | ⟨_, ds, hl⟩
      · exact ⟨[], Or.inl (by rw [hl])⟩
      · exact ⟨ds, Or.inr (Or.inr (by rw [hl, regWrites_finished]))⟩
    all_goals
      obtain ⟨_, _, ds, hl⟩ := b (by simp [hpc])
      exact ⟨ds, Or.inr (Or.inl (by rw [hl, regWrites_streaming]))⟩
  · intro hpc
    rcases d hpc with ⟨hv, hl⟩ | ⟨hv, ds, hl⟩
    · exact Or.inl ⟨hv, by rw [hl]⟩
    · exact Or.inr ⟨hv, ds, by rw [hl, regWrites_finished]⟩

set_option maxRecDepth 16000 in
/-- C19 in a finished run: one divisor queued, a counter stuck at 0; after 9 steps
`transmit` has returned and its register stores have the full shape. -/
theorem transmit_write_shape_witness :
    ((transmit (quietEnv fun _ => 0) 9
          (tinit (qexec qinit [QOp.push 11]).1 false { regs := fun _ => 0, log := [] } 0)).via
        = some .waitHalt ∧
      regWrites (transmit (quietEnv fun _ => 0) 9
          (tinit (qexec qinit [QOp.push 11]).1 false { regs := fun _ => 0, log := [] } 0)).hw.log
        = regWrites []) ∨
    ((transmit (quietEnv fun _ => 0) 9
          (tinit (qexec qinit [QOp.push 11]).1 false { regs := fun _ => 0, log := [] } 0)).via
        ≠ some .waitHalt ∧
      ∃ ds : List Nat,
        regWrites (transmit (quietEnv fun _ => 0) 9
            (tinit (qexec qinit [QOp.push 11]).1 false
              { regs := fun _ => 0, log := [] } 0)).hw.log =
          regWrites [] ++
            [(Reg.GPFSEL0, (0 &&& 0xFFFF8FFF) ||| 0x4000),
             (Reg.GPCLK0_MODE, 0x5A000020), (Reg.GPCLK0_MODE, 0x5A000010),
             (Reg.GPCLK0_MODE, 0x5A000216)] ++
            ds.map (fun d => (Reg.GPCLK0_DIV, divWord d)) ++
            [(Reg.GPCLK0_MODE, 0x5A000000),
             (Reg.GPFSEL0, ((0 &&& 0xFFFF8FFF) ||| 0x4000) &&& 0xFFFF8FFF)]) :=
  (transmit_write_shape (quietEnv fun _ => 0) (qexec qinit [QOp.push 11]).1 false
    { regs := fun _ => 0, log := [] } 0 9).2 (by decide)

theorem tstep_haltseen (e : Env) (s : TState) (hpc : s.pc = .spinHalt ∨ s.pc = .loopTop)
    (hh : (others e s).halt = true) :
    (tstep e s).pc = .out ∧ (tstep e s).hw = s.hw := by
  obtain ⟨h1, h2, _⟩ := others_frame e s
  rcases hpc with hp | hp
  · rw [tstep_eq e s (by rw [hp]; decide)]
    unfold tbody
    simp [h1, hp, hh, h2]
  · rw [tstep_eq e s (by rw [hp]; decide)]
    unfold tbody
    simp [h1, hp, hh, h2]

theorem tstep_out (e : Env) (s : TState) (hpc : s.pc = .out) :
    (tstep e s).pc = .disable ∧
      (tstep e s).hw = { s.hw with log := s.hw.log ++ [Store.halt] } := by
  obtain ⟨h1, h2, _⟩ := others_frame e s
  rw [tstep_eq e s (by rw [hpc]; decide)]
  unfold tbody
  simp [h1, hpc, h2]

theorem tstep_disable (e : Env) (s : TState) (hpc : s.pc = .disable) :
    (tstep e s).pc = .done ∧ (tstep e s).hw = enable_GPCLK0 false s.hw := by
  obtain ⟨h1, h2, _⟩ := others_frame e s
  rw [tstep_eq e s (by rw [hpc]; decide)]
  unfold tbody
  simp [h1, hpc, h2]

/-- C17: when `transmit` stands at `if (halt) goto out;` in the spin-wait or at
`while (!halt)` and reads `halt` as true, its next three steps are `halt=true`, then the two
stores of the disable sequence, then the return: the divisor it holds is not stored, no
word is stored to `GPCLK0_DIV` between the observation and the disable sequence. -/
theorem transmit_halt_skips_write (e : Env) (s : TState)
    (hpc : s.pc = .spinHalt ∨ s.pc = .loopTop) (hh : (others e s).halt = true) :
    (transmit e 1 s).pc = .out ∧ (transmit e 1 s).hw.log = s.hw.log ∧
      (transmit e 2 s).pc = .disable ∧ (transmit e 2 s).hw.log = s.hw.log ++ [Store.halt] ∧
      (transmit e 3 s).pc = .done ∧
      (transmit e 3 s).hw.log =
        s.hw.log ++ [Store.halt] ++ disableSeq (s.hw.regs .GPFSEL0) ∧
      divWritten (transmit e 3 s).hw.log = divWritten s.hw.log := by
  obtain ⟨p1, w1⟩ := tstep_haltseen e s hpc hh
  obtain ⟨p2, w2⟩ := tstep_out e (tstep e s) p1
  obtain ⟨p3, w3⟩ := tstep_disable e (tstep e (tstep e s)) p2
  have e1 : transmit e 1 s = tstep e s := rfl
  have e2 : transmit e 2 s = tstep e (tstep e s) := rfl
  have e3 : transmit e 3 s = tstep e (tstep e (tstep e s)) := rfl
  have hlog : (tstep e (tstep e (tstep e s))).hw.log =
      s.hw.log ++ [Store.halt] ++ disableSeq (s.hw.regs .GPFSEL0) := by
    rw [w3, enable_false_eq, w2, w1]
  rw [e1, e2, e3]
  refine ⟨p1, by rw [w1], p2, by rw [w2, w1], p3, hlog, ?_⟩
  rw [hlog]
  simp [divWritten_append, divWritten, disableSeq]

/-- C17 for a transmitter in the spin-wait holding the divisor 20378 when `halt` is set. -/
theorem transmit_halt_skips_write_witness :
    (transmit (quietEnv fun _ => 0) 1 heldInSpin).pc = .out ∧
      (transmit (quietEnv fun _ => 0) 1 heldInSpin).hw.log = heldInSpin.hw.log ∧
      (transmit (quietEnv fun _ => 0) 2 heldInSpin).pc = .disable ∧
      (transmit (quietEnv fun _ => 0) 2 heldInSpin).hw.log =
        heldInSpin.hw.log ++ [Store.halt] ∧
      (transmit (quietEnv fun _ => 0) 3 heldInSpin).pc = .done ∧
      (transmit (quietEnv fun _ => 0) 3 heldInSpin).hw.log =
        heldInSpin.hw.log ++ [Store.halt] ++ disableSeq (heldInSpin.hw.regs .GPFSEL0) ∧
      divWritten (transmit (quietEnv fun _ => 0) 3 heldInSpin).hw.log =
        divWritten heldInSpin.hw.log :=
  transmit_halt_skips_write (quietEnv fun _ => 0) heldInSpin (Or.inl rfl) (by decide)

/-! ## Process lemmas -/

theorem fread_count (size : Nat) (input : List Nat) :
    (fread size input).1 = 0 ∨ (fread size input).1 = 1 := by
  unfold fread
  split
  · exact Or.inr rfl
  · exact Or.inl rfl

theorem fread_partial (input : List Nat) (h : input.length < BYTES_PER_SAMPLE) :
    (fread BYTES_PER_SAMPLE input).1 = 0 := by
  unfold fread
  rw [if_neg (by omega)]

theorem tbody_halt (e : Env) (s : TState) (h : s.halt = true) : (tbody e s).halt = true := by
  unfold tbody
  cases hpc : s.pc <;> simp only <;> first | exact h | rfl | (split <;> exact h)

theorem rstep_halt (now : Int) (s : Sys) (h : s.tx.halt = true) :
    (rstep now s).tx.halt = true := by
  unfold rstep
  cases hpc : s.rd.pc
  case setup =>
    simp only [die, exitWith]
    repeat' split
    all_goals exact h
  case read =>
    simp only [die, exitWith]
    repeat' split
    all_goals exact h
  case tmo =>
    simp only
    repeat' split
    all_goals exact h
  all_goals simp only <;> first | exact h | rfl | (split <;> first | exact h | rfl)

theorem sysStep_halt (s : Sys) (a : Actor) (h : s.tx.halt = true) :
    (sysStep s a).tx.halt = true := by
  cases a with
  | sig =>
    show (if s.rd.started = true ∧ s.rd.pc ≠ .exited then catchSig s else s).tx.halt = true
    split
    · rfl
    · exact h
  | tx c =>
    show (if s.rd.started = true ∧ s.rd.pc ≠ .exited then
      ({ s with tx := tbody (quietEnv fun _ => c) s.tx } : Sys) else s).tx.halt = true
    split
    · exact tbody_halt _ s.tx h
    · exact h
  | rd now => exact rstep_halt now s h

theorem sysRun_halt (acts : List Actor) :
    ∀ s : Sys, s.tx.halt = true → (sysRun s acts).tx.halt = true := by
  induction acts with
  | nil =>
    intro s h
    exact h
  | cons a acts ih =>
    intro s h
    exact ih (sysStep s a) (sysStep_halt s a h)

theorem tstep_halt (e : Env) (s : TState) (h : s.halt = true) : (tstep e s).halt = true := by
  by_cases hd : s.pc = .done
  · rw [tstep_done e s hd]
    exact h
  · rw [tstep_eq e s hd]
    exact tbody_halt e _ ((others_frame e s).2.2.2.2 h)

/-- What holds of the exit status at each program point of `main`: once `exit` has been
called the status is 1, and the `die` of the read loop has not been taken. -/
theorem rstep_status (now : Int) (s : Sys)
    (h : (s.rd.pc = .cleanup ∨ s.rd.pc = .reap ∨ s.rd.pc = .exited → s.rd.status = 1) ∧
      s.rd.why ≠ some .readFailed) :
    ((rstep now s).rd.pc = .cleanup ∨ (rstep now s).rd.pc = .reap ∨
        (rstep now s).rd.pc = .exited → (rstep now s).rd.status = 1) ∧
      (rstep now s).rd.why ≠ some .readFailed := by
  obtain ⟨hs, hw⟩ := h
  unfold rstep
  cases hpc : s.rd.pc
  case setup =>
    simp only [die, exitWith]
    repeat' split
    all_goals simp [hw]
  case read =>
    rcases fread_count BYTES_PER_SAMPLE s.rd.input with h0 | h1
    · simp [h0]
    · simp only [h1, one_ne_zero, if_false, ne_eq, not_true_eq_false]
      split <;> simp [hw]
  case cleanup =>
    simp only [hpc, true_or, forall_const] at hs
    simp [hs, hw]
  case reap =>
    simp only [hpc, true_or, or_true, forall_const] at hs
    simp only
    split <;> simp [hs, hw, hpc]
  case exited =>
    simp only [hpc, or_true, forall_const] at hs
    simp [hs, hw, hpc]
  case join =>
    simp only
    split <;> simp [hw, hpc]
  case undef => simp [hw, hpc]
  case tmo =>
    simp only
    repeat' split
    all_goals simp [hw]
  all_goals
    simp only
    first | (simp [hw]; done) | (split <;> simp [hw])

theorem sysStep_status (s : Sys) (a : Actor)
    (h : (s.rd.pc = .cleanup ∨ s.rd.pc = .reap ∨ s.rd.pc = .exited → s.rd.status = 1) ∧
      s.rd.why ≠ some .readFailed) :
    ((sysStep s a).rd.pc = .cleanup ∨ (sysStep s a).rd.pc = .reap ∨
        (sysStep s a).rd.pc = .exited → (sysStep s a).rd.status = 1) ∧
      (sysStep s a).rd.why ≠ some .readFailed := by
  cases a with
  | sig =>
    have hrd : (sysStep s .sig).rd = s.rd := by
      show (if s.rd.started = true ∧ s.rd.pc ≠ .exited then catchSig s else s).rd = s.rd
      split <;> rfl
    rw [hrd]
    exact h
  | tx c =>
    have hrd : (sysStep s (.tx c)).rd = s.rd := by
      show (if s.rd.started = true ∧ s.rd.pc ≠ .exited then
        ({ s with tx := tbody (quietEnv fun _ => c) s.tx } : Sys) else s).rd = s.rd
      split <;> rfl
    rw [hrd]
    exact h
  | rd now => exact rstep_status now s h

theorem sysRun_status (acts : List Actor) :
    ∀ s : Sys,
      ((s.rd.pc = .cleanup ∨ s.rd.pc = .reap ∨ s.rd.pc = .exited → s.rd.status = 1) ∧
        s.rd.why ≠ some .readFailed) →
      ((sysRun s acts).rd.pc = .cleanup ∨ (sysRun s acts).rd.pc = .reap ∨
          (sysRun s acts).rd.pc = .exited → (sysRun s acts).rd.status = 1) ∧
        (sysRun s acts).rd.why ≠ some .readFailed := by
  induction acts with
  | nil =>
    intro s h
    exact h
  | cons a acts ih =>
    intro s h
    exact ih (sysStep s a) (sysStep_status s a h)

theorem sysInit_status (cfg : Setup) (bytes : List Nat) (hw : Hw) (dv : Nat) :
    ((sysInit cfg bytes hw dv).rd.pc = .cleanup ∨ (sysInit cfg bytes hw dv).rd.pc = .reap ∨
        (sysInit cfg bytes hw dv).rd.pc = .exited → (sysInit cfg bytes hw dv).rd.status = 1) ∧
      (sysInit cfg bytes hw dv).rd.why ≠ some .readFailed := by
  simp [sysInit]

theorem sysRun_append (a b : List Actor) :
    ∀ s : Sys, sysRun s (a ++ b) = sysRun (sysRun s a) b := by
  induction a with
  | nil =>
    intro s
    rfl
  | cons x a ih =>
    intro s
    exact ih (sysStep s x)

theorem toInt64_small (n : Nat) (h : n < 2 ^ 63) : toInt64 n = (n : Int) := by
  unfold toInt64
  have h1 : n % 2 ^ 64 = n := Nat.mod_eq_of_lt (by omega)
  rw [h1, if_pos h]

/-- The main thread never assigns to its setup, and it is at
`if (timeout) timeout += time(NULL);` only with `timeout` as converted from the option. -/
theorem rstep_cfg (cfg : Setup) (now : Int) (s : Sys)
    (h : s.rd.cfg = cfg ∧ (s.rd.pc = .tmo → s.rd.timeout = toInt64 cfg.timeout)) :
    (rstep now s).rd.cfg = cfg ∧
      ((rstep now s).rd.pc = .tmo → (rstep now s).rd.timeout = toInt64 cfg.timeout) := by
  obtain ⟨hc, ht⟩ := h
  unfold rstep
  cases hpc : s.rd.pc
  case setup =>
    simp only [die, exitWith]
    repeat' split
    all_goals simp [hc]
  case read =>
    simp only [die, exitWith]
    repeat' split
    all_goals simp [hc]
  all_goals
    simp only
    repeat' split
    all_goals simp [hc, hpc]

theorem sysStep_rd_frame (s : Sys) (a : Actor) (h : ∀ t, a ≠ Actor.rd t) :
    (sysStep s a).rd = s.rd := by
  cases a with
  | sig =>
    show (if s.rd.started = true ∧ s.rd.pc ≠ .exited then catchSig s else s).rd = s.rd
    split <;> rfl
  | tx c =>
    show (if s.rd.started = true ∧ s.rd.pc ≠ .exited then
      ({ s with tx := tbody (quietEnv fun _ => c) s.tx } : Sys) else s).rd = s.rd
    split <;> rfl
  | rd now => exact absurd rfl (h now)

theorem sysStep_cfg (cfg : Setup) (s : Sys) (a : Actor)
    (h : s.rd.cfg = cfg ∧ (s.rd.pc = .tmo → s.rd.timeout = toInt64 cfg.timeout)) :
    (sysStep s a).rd.cfg = cfg ∧
      ((sysStep s a).rd.pc = .tmo → (sysStep s a).rd.timeout = toInt64 cfg.timeout) := by
  cases a with
  | sig =>
    rw [sysStep_rd_frame s .sig (fun t => Actor.noConfusion)]
    exact h
  | tx c =>
    rw [sysStep_rd_frame s (.tx c) (fun t => Actor.noConfusion)]
    exact h
  | rd now => exact rstep_cfg cfg now s h

theorem sysRun_cfg (cfg : Setup) (acts : List Actor) :
    ∀ s : Sys, (s.rd.cfg = cfg ∧ (s.rd.pc = .tmo → s.rd.timeout = toInt64 cfg.timeout)) →
      (sysRun s acts).rd.cfg = cfg ∧
        ((sysRun s acts).rd.pc = .tmo → (sysRun s acts).rd.timeout = toInt64 cfg.timeout) := by
  induction acts with
  | nil =>
    intro s h
    exact h
  | cons a acts ih =>
    intro s h
    exact ih (sysStep s a) (sysStep_cfg cfg s a h)

/-- Past `if (timeout) timeout += time(NULL);` the main thread never assigns to `timeout`
and never comes back to the setup. -/
theorem rstep_deadline (D : Int) (now : Int) (s : Sys)
    (h : s.rd.timeout = D ∧ s.rd.pc ≠ .setup ∧ s.rd.pc ≠ .tmo) :
    (rstep now s).rd.timeout = D ∧ (rstep now s).rd.pc ≠ .setup ∧
      (rstep now s).rd.pc ≠ .tmo := by
  obtain ⟨hD, h1, h2⟩ := h
  unfold rstep
  cases hpc : s.rd.pc
  case setup => exact absurd hpc h1
  case tmo => exact absurd hpc h2
  case read =>
    simp only [die, exitWith]
    repeat' split
    all_goals simp [hD]
  all_goals
    simp only
    repeat' split
    all_goals simp [hD, hpc]

theorem sysStep_deadline (D : Int) (s : Sys) (a : Actor)
    (h : s.rd.timeout = D ∧ s.rd.pc ≠ .setup ∧ s.rd.pc ≠ .tmo) :
    (sysStep s a).rd.timeout = D ∧ (sysStep s a).rd.pc ≠ .setup ∧
      (sysStep s a).rd.pc ≠ .tmo := by
  cases a with
  | sig =>
    rw [sysStep_rd_frame s .sig (fun t => Actor.noConfusion)]
    exact h
  | tx c =>
    rw [sysStep_rd_frame s (.tx c) (fun t => Actor.noConfusion)]
    exact h
  | rd now => exact rstep_deadline D now s h

theorem sysRun_deadline (D : Int) (acts : List Actor) :
    ∀ s : Sys, (s.rd.timeout = D ∧ s.rd.pc ≠ .setup ∧ s.rd.pc ≠ .tmo) →
      (sysRun s acts).rd.timeout = D ∧ (sysRun s acts).rd.pc ≠ .setup ∧
        (sysRun s acts).rd.pc ≠ .tmo := by
  induction acts with
  | nil =>
    intro s h
    exact h
  | cons a acts ih =>
    intro s h
    exact ih (sysStep s a) (sysStep_deadline D s a h)

theorem sysRun_rd_frame (mid : List Actor) :
    ∀ s : Sys, (∀ t, Actor.rd t ∉ mid) → (sysRun s mid).rd = s.rd := by
  induction mid with
  | nil =>
    intro s _
    rfl
  | cons a mid ih =>
    intro s h
    have ha : ∀ t, a ≠ Actor.rd t := fun t e => h t (by rw [e]; exact List.mem_cons_self _ _)
    have hm : ∀ t, Actor.rd t ∉ mid := fun t e => h t (List.mem_cons_of_mem _ e)
    show (sysRun (sysStep s a) mid).rd = s.rd
    rw [ih (sysStep s a) hm, sysStep_rd_frame s a ha]

/-- The step `if (timeout) timeout += time(NULL);` for a timeout that fits. -/
theorem rstep_tmo (N : Nat) (start : Int) (s : Sys) (hpc : s.rd.pc = .tmo)
    (ht : s.rd.timeout = (N : Int)) (hN : 0 < N) (hstart : 0 ≤ start)
    (hfit : start + (N : Int) < 2 ^ 63) :
    (rstep start s).rd.timeout = start + N ∧ (rstep start s).rd.pc ≠ .setup ∧
      (rstep start s).rd.pc ≠ .tmo := by
  have hne : s.rd.timeout ≠ 0 := by omega
  have hstep : rstep start s =
      { s with rd := { s.rd with timeout := s.rd.timeout + start, pc := .top } } := by
    unfold rstep
    simp only [hpc]
    rw [if_pos hne, if_pos ⟨by omega, by omega⟩]
  rw [hstep]
  exact ⟨by show s.rd.timeout + start = start + N; omega, by simp, by simp⟩

/-- The step `if (timeout && timeout <= time(NULL)) halt=true;` with a deadline set. -/
theorem rstep_timeChk (D now : Int) (s : Sys) (hpc : s.rd.pc = .timeChk)
    (ht : s.rd.timeout = D) (hD : D ≠ 0) :
    rstep now s =
      if D ≤ now then { tx := { s.tx with halt := true }, rd := { s.rd with pc := .top } }
      else { s with rd := { s.rd with pc := .top } } := by
  unfold rstep
  simp only [hpc]
  by_cases hle : D ≤ now
  · rw [if_pos ⟨by rw [ht]; exact hD, by rw [ht]; exact hle⟩, if_pos hle]
  · rw [if_neg (by rw [ht]; exact fun h => hle h.2), if_neg hle]

theorem rstep_top_halt (now : Int) (s : Sys) (hpc : s.rd.pc = .top) (hh : s.tx.halt = true) :
    rstep now s = { s with rd := { s.rd with why := some .haltSeen, pc := .join } } := by
  unfold rstep
  simp only [hpc]
  rw [if_pos hh]

/-! ## The main thread and the whole process: claims -/

/-- C11 (the code departs from the claim): with three bytes on `stdin`, one sample and one
byte of the next, the read loop is left through `if (!got) break;`, the clean end-of-stream
path, when the trailing byte is read; `fread` returns 0 for every input shorter than one
sample; and in no run of the process is the `die("stdin read failed ...")` taken. -/
theorem partial_sample_ends_cleanly :
    ((sysRun (sysInit setup100_5 [0, 0, 1] { regs := fun _ => 0, log := [] } 0)
        (List.replicate 8 (Actor.rd 0))).rd.pc = .join ∧
      (sysRun (sysInit setup100_5 [0, 0, 1] { regs := fun _ => 0, log := [] } 0)
        (List.replicate 8 (Actor.rd 0))).rd.why = some .eof ∧
      (sysRun (sysInit setup100_5 [0, 0, 1] { regs := fun _ => 0, log := [] } 0)
        (List.replicate 7 (Actor.rd 0))).rd.input = [1]) ∧
    (∀ input : List Nat, input.length < BYTES_PER_SAMPLE →
      (fread BYTES_PER_SAMPLE input).1 = 0) ∧
    ∀ (cfg : Setup) (bytes : List Nat) (hw : Hw) (dv : Nat) (acts : List Actor),
      (sysRun (sysInit cfg bytes hw dv) acts).rd.why ≠ some .readFailed :=
  ⟨⟨by decide, by decide, by decide⟩, fread_partial,
    fun cfg bytes hw dv acts => (sysRun_status acts _ (sysInit_status cfg bytes hw dv)).2⟩

/-- C14: the flag `halt` is monotonic.  A step of the process, whether the handler `catch`,
a step of the transmitter or a step of the main thread (with `cleanup`), either leaves `halt`
as it was or makes it true, so it keeps `halt` true; hence once `halt` is true it is true in
every later state of every run; the same holds of the transmitter run against arbitrary
other contexts. -/
theorem halt_monotonic :
    (∀ (s : Sys) (a : Actor),
      (sysStep s a).tx.halt = s.tx.halt ∨ (sysStep s a).tx.halt = true) ∧
    (∀ (s : Sys) (a : Actor), s.tx.halt = true → (sysStep s a).tx.halt = true) ∧
    (∀ (s : Sys) (acts more : List Actor),
      (sysRun s acts).tx.halt = true → (sysRun s (acts ++ more)).tx.halt = true) ∧
    (∀ (e : Env) (s : TState) (fuel more : Nat),
      (transmit e fuel s).halt = true → (transmit e (fuel + more) s).halt = true) := by
  refine ⟨fun s a => ?_, sysStep_halt, fun s acts more h => ?_, fun e s fuel more h => ?_⟩
  · cases hold : s.tx.halt
    · cases hnew : (sysStep s a).tx.halt
      · exact Or.inl rfl
      · exact Or.inr rfl
    · exact Or.inl (sysStep_halt s a hold)
  · rw [sysRun_append]
    exact sysRun_halt more _ h
  · rw [transmit_add]
    generalize transmit e fuel s = x at h
    induction more generalizing x with
    | zero => exact h
    | succ n ih => exact ih (tstep e x) (tstep_halt e x h)

/-- C14 in a run of the process: after the signal handler has run, `halt` is still true
when the main thread has ended the process. -/
theorem halt_monotonic_witness :
    (sysRun (sysInit setup100_5 [0, 0] { regs := fun _ => 0, log := [] } 0)
      ([Actor.rd 0, Actor.sig] ++ [Actor.rd 0, Actor.rd 0, Actor.tx 0, Actor.tx 0])).tx.halt
      = true :=
  halt_monotonic.2.2.1 (sysInit setup100_5 [0, 0] { regs := fun _ => 0, log := [] } 0)
    [Actor.rd 0, Actor.sig] [Actor.rd 0, Actor.rd 0, Actor.tx 0, Actor.tx 0] (by decide)

/-- C15 fails as stated.  Run as `pifm -t 9223372036854775808 100.5`, started at second 100
with two samples on `stdin`: `strtoul` returns `2^63`, which the assignment to the `time_t`
turns into `-2^63`, so the deadline is `100 - 2^63`, and the timeout check of the first
iteration, which reads the second 100 again, sets `halt` although no second has passed and
`100 < 100 + 2^63`.  Run as `pifm -t 9223372036854775807 100.5`, the addition
`timeout += time(NULL)` overflows `time_t`, and no deadline `start + N` is defined. -/
theorem timeout_wraps_counterexample :
    (sysRun (sysInit setup100_5_tWrap [0, 0, 1, 0] { regs := fun _ => 0, log := [] } 0)
        [Actor.rd 0, Actor.rd 100, Actor.rd 0, Actor.rd 0, Actor.rd 0]).rd.pc = .timeChk ∧
      (sysRun (sysInit setup100_5_tWrap [0, 0, 1, 0] { regs := fun _ => 0, log := [] } 0)
        [Actor.rd 0, Actor.rd 100, Actor.rd 0, Actor.rd 0, Actor.rd 0]).tx.halt = false ∧
      (sysRun (sysInit setup100_5_tWrap [0, 0, 1, 0] { regs := fun _ => 0, log := [] } 0)
        [Actor.rd 0, Actor.rd 100, Actor.rd 0, Actor.rd 0, Actor.rd 0]).rd.timeout
          = 100 - 2 ^ 63 ∧
      (sysRun (sysInit setup100_5_tWrap [0, 0, 1, 0] { regs := fun _ => 0, log := [] } 0)
        [Actor.rd 0, Actor.rd 100, Actor.rd 0, Actor.rd 0, Actor.rd 0,
         Actor.rd 100]).tx.halt = true ∧
      ¬ ((100 : Int) + ((2 ^ 63 : Nat) : Int) ≤ 100) ∧
      (sysRun (sysInit setup100_5_tMax [0, 0, 1, 0] { regs := fun _ => 0, log := [] } 0)
        [Actor.rd 0, Actor.rd 100]).rd.pc = .undef := by
  decide

/-- C15 as amended: a timeout of `N > 0` seconds whose deadline fits `time_t`.  In a run of
the process from the entry to `main` with `-t N`, let `start ≥ 0` be the second that
`if (timeout) timeout += time(NULL);` reads, with `start + N < 2^63`.  Then in every later
state `s` of the run, under any schedule of the signal handler, the transmitter and the main
thread, `timeout` is the deadline `start + N`.  When `s` is at the timeout check of an
iteration, the check executes `halt=true` iff the second `now` it reads is at or after the
deadline, so with `halt` not yet set it sets `halt` iff `start + N ≤ now`, and it leaves the
input as it is; and when `start + N ≤ now`, whatever the handler and the transmitter do
meanwhile, the next test of `while (!halt)` leaves the loop for `pthread_join` without
reading the input that remains. -/
theorem timeout_halts_at_deadline (cfg : Setup) (bytes : List Nat) (hw : Hw) (dv N : Nat)
    (start : Int) (pre post : List Actor) (s : Sys)
    (hN : 0 < N) (hcfg : cfg.timeout = N) (hstart : 0 ≤ start)
    (hfit : start + (N : Int) < 2 ^ 63)
    (hpre : (sysRun (sysInit cfg bytes hw dv) pre).rd.pc = .tmo)
    (hs : s = sysRun (sysInit cfg bytes hw dv) (pre ++ Actor.rd start :: post)) :
    s.rd.timeout = start + N ∧
    (s.rd.pc = .timeChk →
      (∀ now : Int,
        rstep now s =
            (if start + N ≤ now then
              { tx := { s.tx with halt := true }, rd := { s.rd with pc := .top } }
            else { s with rd := { s.rd with pc := .top } }) ∧
          (s.tx.halt = false → ((rstep now s).tx.halt = true ↔ start + N ≤ now)) ∧
          (rstep now s).rd.pc = .top ∧ (rstep now s).rd.input = s.rd.input ∧
          (rstep now s).rd.timeout = start + N) ∧
      ∀ (now t : Int) (mid : List Actor), start + N ≤ now → (∀ u, Actor.rd u ∉ mid) →
        (sysRun s (Actor.rd now :: mid ++ [Actor.rd t])).tx.halt = true ∧
          (sysRun s (Actor.rd now :: mid ++ [Actor.rd t])).rd.pc = .join ∧
          (sysRun s (Actor.rd now :: mid ++ [Actor.rd t])).rd.why = some .haltSeen ∧
          (sysRun s (Actor.rd now :: mid ++ [Actor.rd t])).rd.input = s.rd.input) := by
  have hN63 : N < 2 ^ 63 := by omega
  have hinit : (sysInit cfg bytes hw dv).rd.cfg = cfg ∧
      ((sysInit cfg bytes hw dv).rd.pc = .tmo →
        (sysInit cfg bytes hw dv).rd.timeout = toInt64 cfg.timeout) :=
    ⟨rfl, fun h => RPC.noConfusion h⟩
  have h0 := (sysRun_cfg cfg pre _ hinit).2 hpre
  rw [hcfg, toInt64_small N hN63] at h0
  have h1 := rstep_tmo N start _ hpre h0 hN hstart hfit
  have hrun : s = sysRun (rstep start (sysRun (sysInit cfg bytes hw dv) pre)) post := by
    rw [hs, sysRun_append]
    rfl
  have hD := sysRun_deadline (start + N) post _ h1
  rw [← hrun] at hD
  have hne : start + (N : Int) ≠ 0 := by omega
  refine ⟨hD.1, fun hpc => ⟨fun now => ?_, fun now t mid hle hmid => ?_⟩⟩
  · have hstep := rstep_timeChk (start + N) now s hpc hD.1 hne
    refine ⟨hstep, fun hh => ?_, ?_, ?_, ?_⟩
    · rw [hstep]
      by_cases hle : start + (N : Int) ≤ now
      · rw [if_pos hle]
        exact ⟨fun _ => hle, fun _ => rfl⟩
      · rw [if_neg hle]
        refine ⟨fun h => ?_, fun h => absurd h hle⟩
        have h' : s.tx.halt = true := h
        rw [hh] at h'
        exact Bool.noConfusion h'
    · rw [hstep]
      split <;> rfl
    · rw [hstep]
      split <;> rfl
    · rw [hstep]
      split
      · exact hD.1
      · exact hD.1
  · have hstep : rstep now s =
        { tx := { s.tx with halt := true }, rd := { s.rd with pc := .top } } := by
      rw [rstep_timeChk (start + N) now s hpc hD.1 hne, if_pos hle]
    have hsplit : sysRun s (Actor.rd now :: mid ++ [Actor.rd t]) =
        rstep t (sysRun (rstep now s) mid) := by
      show sysRun (rstep now s) (mid ++ [Actor.rd t]) = _
      rw [sysRun_append]
      rfl
    have hrd : (sysRun (rstep now s) mid).rd = (rstep now s).rd :=
      sysRun_rd_frame mid _ hmid
    have hh : (sysRun (rstep now s) mid).tx.halt = true :=
      sysRun_halt mid _ (by rw [hstep])
    have hpc2 : (sysRun (rstep now s) mid).rd.pc = .top := by rw [hrd, hstep]
    have hin : (sysRun (rstep now s) mid).rd.input = s.rd.input := by rw [hrd, hstep]
    rw [hsplit, rstep_top_halt t _ hpc2 hh]
    exact ⟨hh, rfl, rfl, hin⟩

set_option maxRecDepth 16000 in
/-- C15 for `pifm -t 3 100.5` started at second 100 with three samples on `stdin`, at the
timeout check of the second iteration, the first having read the second 101: the deadline
is still 103; a check that reads 102 does not set `halt` and one that reads 103 does; and
after the check at 103, a step of the transmitter and a signal, the loop is left for
`pthread_join` with the third sample unread. -/
theorem timeout_halts_at_deadline_witness :
    atSecondTimeChk.rd.timeout = 103 ∧
      ¬ (rstep 102 atSecondTimeChk).tx.halt = true ∧
      (rstep 103 atSecondTimeChk).tx.halt = true ∧
      (sysRun atSecondTimeChk
          (Actor.rd 103 :: [Actor.tx 0, Actor.sig] ++ [Actor.rd 104])).rd.pc = .join ∧
      (sysRun atSecondTimeChk
          (Actor.rd 103 :: [Actor.tx 0, Actor.sig] ++ [Actor.rd 104])).rd.input =
        atSecondTimeChk.rd.input ∧
      atSecondTimeChk.rd.input = [2, 0] :=
  have h := timeout_halts_at_deadline setup100_5_t3 [0, 0, 1, 0, 2, 0]
    { regs := fun _ => 0, log := [] } 0 3 100 [Actor.rd 0, Actor.tx 0]
    [Actor.rd 0, Actor.rd 0, Actor.rd 0, Actor.tx 0, Actor.rd 101,
      Actor.rd 0, Actor.rd 0, Actor.rd 0]
    atSecondTimeChk (by decide) rfl (by decide) (by decide) (by decide) rfl
  ⟨h.1,
    fun hh => absurd ((((h.2 (by decide)).1 102).2.1 (by decide)).1 hh) (by decide),
    (((h.2 (by decide)).1 103).2.1 (by decide)).2 (by decide),
    ((h.2 (by decide)).2 103 104 [Actor.tx 0, Actor.sig] (by decide) (by simp)).2.1,
    ((h.2 (by decide)).2 103 104 [Actor.tx 0, Actor.sig] (by decide) (by simp)).2.2.2,
    by decide⟩

/-- C16: the exit status is 1 on every terminating path.  In every run of the process, when
it has ended the status passed to `exit` is 1, so never 0; each fatal setup path (`usage`
for a bad option or a non-positive deviation or frequency, failure of `open`, of `mmap`, of
`pthread_create`) ends the process at once with status 1; and the `return 1` that follows
`pthread_join` hands status 1 to `exit`. -/
theorem exit_status_one (cfg : Setup) (bytes : List Nat) (hw : Hw) (dv : Nat)
    (acts : List Actor) :
    ((sysRun (sysInit cfg bytes hw dv) acts).rd.pc = .exited →
      (sysRun (sysInit cfg bytes hw dv) acts).rd.status = 1) ∧
    (∀ now : Int,
      cfg.badOption = true ∨ cfg.deviation.m ≤ 0 ∨ cfg.frequency.m ≤ 0 ∨
          cfg.openOk = false ∨ cfg.mmapOk = false ∨ cfg.createOk = false →
        (rstep now (sysInit cfg bytes hw dv)).rd.pc = .exited ∧
          (rstep now (sysInit cfg bytes hw dv)).rd.status = 1) ∧
    (∀ (s : Sys) (now : Int), s.rd.pc = .join → s.tx.pc = .done →
      (rstep now s).rd.pc = .cleanup ∧ (rstep now s).rd.status = 1) := by
  refine ⟨fun h => ?_, fun now h => ?_, fun s now hj hd => ?_⟩
  · exact (sysRun_status acts _ (sysInit_status cfg bytes hw dv)).1 (Or.inr (Or.inr h))
  · unfold rstep
    simp only [sysInit, die, exitWith]
    repeat' split
    all_goals first
      | exact ⟨rfl, rfl⟩
      | (exfalso
         simp_all
         done)
      | (exfalso
         simp_all
         omega)
  · have hstep : rstep now s = { s with rd := { s.rd with status := 1, pc := .cleanup } } := by
      unfold rstep
      simp only [hj]
      rw [if_pos hd]
    rw [hstep]
    exact ⟨rfl, rfl⟩

set_option maxRecDepth 16000 in
/-- C16 in a whole run of `pifm 100.5` on one sample: the main thread reads to the end of
the stream, the transmitter drains the queue and returns, the main thread joins it and the
process ends with status 1. -/
theorem exit_status_one_witness :
    (sysRun (sysInit setup100_5 [0, 0] { regs := fun _ => 0, log := [] } 0)
      (List.replicate 8 (Actor.rd 0) ++ List.replicate 9 (Actor.tx 0) ++
        List.replicate 3 (Actor.rd 0))).rd.status = 1 :=
  (exit_status_one setup100_5 [0, 0] { regs := fun _ => 0, log := [] } 0
    (List.replicate 8 (Actor.rd 0) ++ List.replicate 9 (Actor.tx 0) ++
      List.replicate 3 (Actor.rd 0))).1 (by decide)

end Pifm
